import Mathlib

/-!
Verification of the CodexPro cockpit's persistence and snippet-extraction core.

The embedding covers the two pieces of state logic of the application
(src/unnamed/part_000): the Project Store (saveProjects, createProject, the
load effect reading localStorage key codexpro_projects) and the
Message/Snippet Ingestor (addMessage with its fenced-code extraction), plus
the turn orchestration handleSendMessage.  The persisted representation is
modelled down to the character level: JsValue models the JavaScript runtime
values the program hands to JSON.stringify (including Date objects, which
serialize through toISOString), jsonStringify models JSON.stringify and
jsonParse models JSON.parse.  External collaborators (the chat client,
crypto.randomUUID, the clock) enter as explicit parameters.
-/

set_option maxRecDepth 4000

namespace CodexPro

/-! ## JavaScript values as stored and serialized

The program stores, at one localStorage key, JSON.stringify of a list of
Project records.  Every runtime value reachable from such a record is one of
the shapes below.  The date constructor models a JavaScript Date object
carrying the ISO-8601 text its toISOString / toJSON returns; JSON.stringify
writes a Date as that string, and JSON.parse has no inverse step, which is
the asymmetry several claims turn on.  Numbers are modelled as integers: no
code path of the repository ever stores a fractional number (the numeric
fields of the schema are never populated), and floating point is outside
this embedding.  An object is its field list in insertion order, which is
the order JSON.stringify writes. -/
inductive JsValue where
  | null : JsValue
  | bool (b : Bool) : JsValue
  | num (n : Int) : JsValue
  | str (s : String) : JsValue
  | date (iso : String) : JsValue
  | arr (elems : List JsValue) : JsValue
  | obj (fields : List (String × JsValue)) : JsValue

mutual

/-- Structural equality test on values; split over the two nested list
positions, for which no deriving handler exists. -/
def jvBeq : JsValue → JsValue → Bool
  | JsValue.null, JsValue.null => true
  | JsValue.bool a, JsValue.bool b => a = b
  | JsValue.num a, JsValue.num b => a = b
  | JsValue.str a, JsValue.str b => a = b
  | JsValue.date a, JsValue.date b => a = b
  | JsValue.arr a, JsValue.arr b => jvBeqL a b
  | JsValue.obj a, JsValue.obj b => jvBeqF a b
  | _, _ => false

/-- Equality test on element lists. -/
def jvBeqL : List JsValue → List JsValue → Bool
  | [], [] => true
  | x :: xs, y :: ys => jvBeq x y && jvBeqL xs ys
  | _, _ => false

/-- Equality test on field lists. -/
def jvBeqF : List (String × JsValue) → List (String × JsValue) → Bool
  | [], [] => true
  | (k, v) :: xs, (l, w) :: ys => k = l && (jvBeq v w && jvBeqF xs ys)
  | _, _ => false

end

mutual

theorem jvBeq_iff : ∀ a b : JsValue, jvBeq a b = true ↔ a = b
  | JsValue.null, JsValue.null => by simp [jvBeq]
  | JsValue.bool _, JsValue.bool _ => by simp [jvBeq]
  | JsValue.num _, JsValue.num _ => by simp [jvBeq]
  | JsValue.str _, JsValue.str _ => by simp [jvBeq]
  | JsValue.date _, JsValue.date _ => by simp [jvBeq]
  | JsValue.arr a, JsValue.arr b => by simp [jvBeq, jvBeqL_iff a b]
  | JsValue.obj a, JsValue.obj b => by simp [jvBeq, jvBeqF_iff a b]
  | JsValue.null, JsValue.bool _ | JsValue.null, JsValue.num _ | JsValue.null, JsValue.str _
  | JsValue.null, JsValue.date _ | JsValue.null, JsValue.arr _ | JsValue.null, JsValue.obj _
  | JsValue.bool _, JsValue.null | JsValue.bool _, JsValue.num _ | JsValue.bool _, JsValue.str _
  | JsValue.bool _, JsValue.date _ | JsValue.bool _, JsValue.arr _ | JsValue.bool _, JsValue.obj _
  | JsValue.num _, JsValue.null | JsValue.num _, JsValue.bool _ | JsValue.num _, JsValue.str _
  | JsValue.num _, JsValue.date _ | JsValue.num _, JsValue.arr _ | JsValue.num _, JsValue.obj _
  | JsValue.str _, JsValue.null | JsValue.str _, JsValue.bool _ | JsValue.str _, JsValue.num _
  | JsValue.str _, JsValue.date _ | JsValue.str _, JsValue.arr _ | JsValue.str _, JsValue.obj _
  | JsValue.date _, JsValue.null | JsValue.date _, JsValue.bool _ | JsValue.date _, JsValue.num _
  | JsValue.date _, JsValue.str _ | JsValue.date _, JsValue.arr _ | JsValue.date _, JsValue.obj _
  | JsValue.arr _, JsValue.null | JsValue.arr _, JsValue.bool _ | JsValue.arr _, JsValue.num _
  | JsValue.arr _, JsValue.str _ | JsValue.arr _, JsValue.date _ | JsValue.arr _, JsValue.obj _
  | JsValue.obj _, JsValue.null | JsValue.obj _, JsValue.bool _ | JsValue.obj _, JsValue.num _
  | JsValue.obj _, JsValue.str _ | JsValue.obj _, JsValue.date _ | JsValue.obj _, JsValue.arr _ => by
    simp [jvBeq]

theorem jvBeqL_iff : ∀ xs ys : List JsValue, jvBeqL xs ys = true ↔ xs = ys
  | [], [] => by simp [jvBeqL]
  | x :: xs, y :: ys => by simp [jvBeqL, jvBeq_iff x y, jvBeqL_iff xs ys]
  | [], _ :: _ => by simp [jvBeqL]
  | _ :: _, [] => by simp [jvBeqL]

theorem jvBeqF_iff : ∀ xs ys : List (String × JsValue), jvBeqF xs ys = true ↔ xs = ys
  | [], [] => by simp [jvBeqF]
  | (k, v) :: xs, (l, w) :: ys => by
    simp [jvBeqF, jvBeq_iff v w, jvBeqF_iff xs ys]
    tauto
  | [], _ :: _ => by simp [jvBeqF]
  | _ :: _, [] => by simp [jvBeqF]

end

instance : DecidableEq JsValue := fun a b => decidable_of_iff _ (jvBeq_iff a b)

/-! ## JSON.stringify

The serializer below writes exactly the text JSON.stringify(v) produces for
the value shapes above: no whitespace, fields in insertion order, strings
with the standard escapes (quote, backslash, the five short control escapes,
and lower-case u00XX for the remaining control characters), integers in
decimal, and a Date written as its ISO string in quotes. -/

/-- The quote character. -/
def qc : Char := Char.ofNat 34

/-- The backslash character. -/
def bs : Char := Char.ofNat 92

/-- The opening brace character. -/
def ocb : Char := Char.ofNat 123

/-- The closing brace character. -/
def ccb : Char := Char.ofNat 125

/-- The decimal digit character for d. -/
def digitChar (d : Nat) : Char := Char.ofNat (48 + d)

/-- The lower-case hexadecimal digit character for d. -/
def hexChar (d : Nat) : Char := if d < 10 then Char.ofNat (48 + d) else Char.ofNat (87 + d)

/-- How JSON.stringify writes one character inside a string literal. -/
def escChar (c : Char) : List Char :=
  if c = qc then [bs, qc]
  else if c = bs then [bs, bs]
  else if c = Char.ofNat 8 then [bs, 'b']
  else if c = Char.ofNat 9 then [bs, 't']
  else if c = Char.ofNat 10 then [bs, 'n']
  else if c = Char.ofNat 12 then [bs, 'f']
  else if c = Char.ofNat 13 then [bs, 'r']
  else if c.toNat < 32 then [bs, 'u', '0', '0', hexChar (c.toNat / 16), hexChar (c.toNat % 16)]
  else [c]

/-- A string body, escaped. -/
def escChars : List Char → List Char
  | [] => []
  | c :: cs => escChar c ++ escChars cs

/-- A JSON string literal, quotes included. -/
def serStr (s : String) : List Char := qc :: (escChars s.data ++ [qc])

/-- Decimal digits of n, most significant first; the fuel is spent once per
digit, so fuel n is always enough for n itself. -/
def natCharsAux : Nat → Nat → List Char
  | 0, _ => []
  | fuel + 1, n => if n = 0 then [] else natCharsAux fuel (n / 10) ++ [digitChar (n % 10)]

/-- Decimal rendering of a natural number. -/
def natChars (n : Nat) : List Char := if n = 0 then ['0'] else natCharsAux n n

/-- Decimal rendering of an integer, as JSON.stringify writes one. -/
def intChars (n : Int) : List Char :=
  if n < 0 then '-' :: natChars n.natAbs else natChars n.toNat

mutual

/-- The text JSON.stringify produces for a value. -/
def serVal : JsValue → List Char
  | JsValue.null => ['n', 'u', 'l', 'l']
  | JsValue.bool true => ['t', 'r', 'u', 'e']
  | JsValue.bool false => ['f', 'a', 'l', 's', 'e']
  | JsValue.num n => intChars n
  | JsValue.str s => serStr s
  | JsValue.date iso => serStr iso
  | JsValue.arr xs => '[' :: (serArr xs ++ [']'])
  | JsValue.obj fs => ocb :: (serObj fs ++ [ccb])

/-- Array elements, comma separated. -/
def serArr : List JsValue → List Char
  | [] => []
  | [x] => serVal x
  | x :: y :: xs => serVal x ++ ',' :: serArr (y :: xs)

/-- Object fields, comma separated, each as key colon value. -/
def serObj : List (String × JsValue) → List Char
  | [] => []
  | [(k, v)] => serStr k ++ ':' :: serVal v
  | (k, v) :: f :: fs => serStr k ++ ':' :: serVal v ++ ',' :: serObj (f :: fs)

end

/-- The model of JSON.stringify. -/
def jsonStringify (v : JsValue) : String := (serVal v).asString

mutual

/-- What survives a stringify-then-parse cycle: a Date leaf is replaced by
the plain string JSON.stringify wrote for it; everything else is kept. -/
def stripDates : JsValue → JsValue
  | JsValue.date iso => JsValue.str iso
  | JsValue.arr xs => JsValue.arr (stripDatesL xs)
  | JsValue.obj fs => JsValue.obj (stripDatesF fs)
  | v => v

/-- stripDates over an element list. -/
def stripDatesL : List JsValue → List JsValue
  | [] => []
  | x :: xs => stripDates x :: stripDatesL xs

/-- stripDates over a field list. -/
def stripDatesF : List (String × JsValue) → List (String × JsValue)
  | [] => []
  | (k, v) :: fs => (k, stripDates v) :: stripDatesF fs

end

/-! ## JSON.parse

A recursive-descent reader of JSON text, modelling JSON.parse on the
fragment the program can ever store: null, booleans, strings (with the
standard escapes; a u-escape is read as one scalar), integral numbers,
arrays and objects, with interstitial whitespace.  It returns none exactly
where JSON.parse throws a SyntaxError (the model does not cover fractional
or exponent number forms, which the program never writes).  The recursion is
paid for with fuel; jsonParse supplies one unit per input character plus
one, which the completeness proofs show is always enough for text the
serializer wrote. -/

/-- JSON interstitial whitespace. -/
def isJsonWs (c : Char) : Bool := c = ' ' || c = Char.ofNat 9 || c = Char.ofNat 10 || c = Char.ofNat 13

/-- Skip interstitial whitespace. -/
def skipWs (l : List Char) : List Char := l.dropWhile isJsonWs

/-- The value of a hexadecimal digit character. -/
def hexVal (c : Char) : Option Nat :=
  if 48 ≤ c.toNat ∧ c.toNat ≤ 57 then some (c.toNat - 48)
  else if 97 ≤ c.toNat ∧ c.toNat ≤ 102 then some (c.toNat - 87)
  else if 65 ≤ c.toNat ∧ c.toNat ≤ 70 then some (c.toNat - 55)
  else none

/-- The character a short escape stands for. -/
def escVal (c : Char) : Option Char :=
  if c = qc then some qc
  else if c = bs then some bs
  else if c = '/' then some '/'
  else if c = 'b' then some (Char.ofNat 8)
  else if c = 'f' then some (Char.ofNat 12)
  else if c = 'n' then some (Char.ofNat 10)
  else if c = 'r' then some (Char.ofNat 13)
  else if c = 't' then some (Char.ofNat 9)
  else none

/-- Read a string body up to its closing quote, translating escapes; none
where JSON.parse would raise (unterminated text, a bad escape, or a raw
control character). -/
def parseStrBody : List Char → Option (List Char × List Char)
  | [] => none
  | c :: rest =>
    if c = qc then some ([], rest)
    else if c = bs then
      match rest with
      | [] => none
      | e :: rest2 =>
        if e = 'u' then
          match rest2 with
          | h1 :: h2 :: h3 :: h4 :: rest3 =>
            match hexVal h1, hexVal h2, hexVal h3, hexVal h4 with
            | some a, some b, some c2, some d =>
              match parseStrBody rest3 with
              | some (cs, r) => some (Char.ofNat (((a * 16 + b) * 16 + c2) * 16 + d) :: cs, r)
              | none => none
            | _, _, _, _ => none
          | _ => none
        else
          match escVal e with
          | some ch =>
            match parseStrBody rest2 with
            | some (cs, r) => some (ch :: cs, r)
            | none => none
          | none => none
    else if c.toNat < 32 then none
    else
      match parseStrBody rest with
      | some (cs, r) => some (c :: cs, r)
      | none => none

/-- Decimal digit test. -/
def isDigitC (c : Char) : Bool := 48 ≤ c.toNat && c.toNat ≤ 57

/-- The numeric value of a digit character. -/
def digitVal (c : Char) : Nat := c.toNat - 48

/-- Read a maximal nonempty run of decimal digits as a natural number. -/
def parseNat (l : List Char) : Option (Nat × List Char) :=
  match l.takeWhile isDigitC with
  | [] => none
  | ds => some (ds.foldl (fun a c => a * 10 + digitVal c) 0, l.dropWhile isDigitC)

/-- Match an exact literal tail, as for null, true and false. -/
def expectChars : List Char → List Char → Option (List Char)
  | [], l => some l
  | e :: es, c :: l => if c = e then expectChars es l else none
  | _ :: _, [] => none

mutual

/-- Read one value. -/
def parseVal : Nat → List Char → Option (JsValue × List Char)
  | 0, _ => none
  | _ + 1, [] => none
  | fuel + 1, c :: rest =>
    if c = qc then
      match parseStrBody rest with
      | some (cs, r) => some (JsValue.str cs.asString, r)
      | none => none
    else if c = '[' then parseArrTail fuel (skipWs rest)
    else if c = ocb then parseObjTail fuel (skipWs rest)
    else if c = 'n' then
      match expectChars ['u', 'l', 'l'] rest with
      | some r => some (JsValue.null, r)
      | none => none
    else if c = 't' then
      match expectChars ['r', 'u', 'e'] rest with
      | some r => some (JsValue.bool true, r)
      | none => none
    else if c = 'f' then
      match expectChars ['a', 'l', 's', 'e'] rest with
      | some r => some (JsValue.bool false, r)
      | none => none
    else if c = '-' then
      match parseNat rest with
      | some (n, r) => some (JsValue.num (-(n : Int)), r)
      | none => none
    else if isDigitC c then
      match parseNat (c :: rest) with
      | some (n, r) => some (JsValue.num (n : Int), r)
      | none => none
    else none

/-- After an opening bracket and whitespace: a closing bracket or the
elements. -/
def parseArrTail : Nat → List Char → Option (JsValue × List Char)
  | 0, _ => none
  | _ + 1, [] => none
  | fuel + 1, c :: r =>
    if c = ']' then some (JsValue.arr [], r)
    else
      match parseElems fuel (c :: r) with
      | some (vs, r2) => some (JsValue.arr vs, r2)
      | none => none

/-- After an opening brace and whitespace: a closing brace or the fields. -/
def parseObjTail : Nat → List Char → Option (JsValue × List Char)
  | 0, _ => none
  | _ + 1, [] => none
  | fuel + 1, c :: r =>
    if c = ccb then some (JsValue.obj [], r)
    else
      match parseFields fuel (c :: r) with
      | some (fs, r2) => some (JsValue.obj fs, r2)
      | none => none

/-- Read the elements of a nonempty array, the opening bracket and leading
whitespace already consumed. -/
def parseElems : Nat → List Char → Option (List JsValue × List Char)
  | 0, _ => none
  | fuel + 1, l =>
    match parseVal fuel l with
    | some (v, r) => parseElemsSep fuel v (skipWs r)
    | none => none

/-- After one element: a comma and more elements, or the closing bracket. -/
def parseElemsSep : Nat → JsValue → List Char → Option (List JsValue × List Char)
  | 0, _, _ => none
  | _ + 1, _, [] => none
  | fuel + 1, v, c :: r =>
    if c = ',' then
      match parseElems fuel (skipWs r) with
      | some (vs, r2) => some (v :: vs, r2)
      | none => none
    else if c = ']' then some ([v], r)
    else none

/-- Read the fields of a nonempty object, the opening brace and leading
whitespace already consumed. -/
def parseFields : Nat → List Char → Option (List (String × JsValue) × List Char)
  | 0, _ => none
  | _ + 1, [] => none
  | fuel + 1, c :: rest =>
    if c = qc then
      match parseStrBody rest with
      | some (k, r) => parseFieldsColon fuel k.asString (skipWs r)
      | none => none
    else none

/-- After a field's key: the colon and its value. -/
def parseFieldsColon : Nat → String → List Char → Option (List (String × JsValue) × List Char)
  | 0, _, _ => none
  | _ + 1, _, [] => none
  | fuel + 1, k, c :: r =>
    if c = ':' then
      match parseVal fuel (skipWs r) with
      | some (v, r2) => parseFieldsSep fuel k v (skipWs r2)
      | none => none
    else none

/-- After one field: a comma and more fields, or the closing brace. -/
def parseFieldsSep : Nat → String → JsValue → List Char → Option (List (String × JsValue) × List Char)
  | 0, _, _, _ => none
  | _ + 1, _, _, [] => none
  | fuel + 1, k, v, c :: r =>
    if c = ',' then
      match parseFields fuel (skipWs r) with
      | some (fs, r2) => some ((k, v) :: fs, r2)
      | none => none
    else if c = ccb then some ([(k, v)], r)
    else none

end

/-- The model of JSON.parse: a value with only whitespace around it. The
fuel bound of three units per character plus three covers every reading the
grammar admits; the completeness proof below shows it is enough on all
serializer output. -/
def jsonParse (s : String) : Option JsValue :=
  match parseVal (3 * s.data.length + 3) (skipWs s.data) with
  | some (v, r) => if skipWs r = [] then some v else none
  | none => none

/-! ## Round-trip correctness of the JSON model

What jsonParse reads back from jsonStringify's output is the original value
with every Date leaf turned into its ISO string — stripDates of the input.
The development below follows the shape of the serializer: lemmas about
digits, about escaped strings, and then one mutual induction over values,
element lists and field lists. -/

/-- True when the list does not begin with a decimal digit, so a digit run
ending right before it is maximal. -/
def noLeadDigit : List Char → Bool
  | [] => true
  | c :: _ => !isDigitC c

/-- The side condition of the completeness lemma: a serialized number must
not be followed immediately by another digit. -/
def numGuard : JsValue → List Char → Prop
  | JsValue.num _, rest => noLeadDigit rest = true
  | _, _ => True

theorem numGuard_of_not_num : ∀ (v : JsValue) (rest : List Char),
    (∀ n : Int, v ≠ JsValue.num n) → numGuard v rest := by
  intro v rest h
  cases v with
  | num n => exact absurd rfl (h n)
  | null => trivial
  | bool b => trivial
  | str s => trivial
  | date s => trivial
  | arr xs => trivial
  | obj fs => trivial

theorem skipWs_nil : skipWs [] = [] := rfl

theorem skipWs_cons_of_not_ws (c : Char) (l : List Char) (h : isJsonWs c = false) :
    skipWs (c :: l) = c :: l := by
  simp [skipWs, List.dropWhile, h]

theorem char_ne_of_toNat_ne (c d : Char) (h : c.toNat ≠ d.toNat) : c ≠ d :=
  fun he => h (he ▸ rfl)

theorem not_ws_of_digit_range (c : Char) (h1 : 48 ≤ c.toNat) (h2 : c.toNat ≤ 57) :
    isJsonWs c = false := by
  have e1 : c ≠ ' ' := char_ne_of_toNat_ne c ' ' (by simpa using by omega)
  have e2 : c ≠ Char.ofNat 9 := char_ne_of_toNat_ne c (Char.ofNat 9) (by simpa using by omega)
  have e3 : c ≠ Char.ofNat 10 := char_ne_of_toNat_ne c (Char.ofNat 10) (by simpa using by omega)
  have e4 : c ≠ Char.ofNat 13 := char_ne_of_toNat_ne c (Char.ofNat 13) (by simpa using by omega)
  simp [isJsonWs, e1, e2, e3, e4]

theorem digitChar_toNat (d : Nat) (h : d < 10) : (digitChar d).toNat = 48 + d := by
  interval_cases d <;> decide

theorem hexVal_hexChar (d : Nat) (h : d < 16) : hexVal (hexChar d) = some d := by
  interval_cases d <;> decide

theorem isDigitC_iff (c : Char) : isDigitC c = true ↔ 48 ≤ c.toNat ∧ c.toNat ≤ 57 := by
  simp [isDigitC]

/-- Every character the digit renderer emits is a decimal digit. -/
theorem natCharsAux_digits : ∀ (fuel n : Nat), ∀ c ∈ natCharsAux fuel n, isDigitC c = true := by
  intro fuel
  induction fuel with
  | zero => intro n c hc; simp [natCharsAux] at hc
  | succ fuel ih =>
    intro n c hc
    by_cases h0 : n = 0
    · simp [natCharsAux, h0] at hc
    · rw [natCharsAux, if_neg h0] at hc
      rcases List.mem_append.mp hc with h | h
      · exact ih (n / 10) c h
      · have : c = digitChar (n % 10) := by simpa using h
        subst this
        rw [isDigitC_iff, digitChar_toNat (n % 10) (Nat.mod_lt n (by omega))]
        omega

theorem natChars_digits (n : Nat) : ∀ c ∈ natChars n, isDigitC c = true := by
  intro c hc
  by_cases h0 : n = 0
  · simp [natChars, h0] at hc
    subst hc; decide
  · rw [natChars, if_neg h0] at hc
    exact natCharsAux_digits n n c hc

theorem natChars_ne_nil (n : Nat) : natChars n ≠ [] := by
  by_cases h0 : n = 0
  · simp [natChars, h0]
  · rw [natChars, if_neg h0]
    obtain ⟨m, rfl⟩ : ∃ m, n = m + 1 := ⟨n - 1, by omega⟩
    rw [natCharsAux, if_neg h0]
    simp

/-- Folding digits back up inverts the renderer, whatever has accumulated. -/
theorem natCharsAux_foldl : ∀ (fuel n a : Nat), n ≤ fuel →
    List.foldl (fun x c => x * 10 + digitVal c) a (natCharsAux fuel n) =
      a * 10 ^ (natCharsAux fuel n).length + n := by
  intro fuel
  induction fuel with
  | zero => intro n a h; interval_cases n; simp [natCharsAux]
  | succ fuel ih =>
    intro n a h
    by_cases h0 : n = 0
    · simp [natCharsAux, h0]
    · rw [natCharsAux, if_neg h0]
      rw [List.foldl_append]
      have hdiv : n / 10 ≤ fuel := by
        have : n / 10 < n := Nat.div_lt_self (by omega) (by omega)
        omega
      rw [ih (n / 10) a hdiv]
      have hd : digitVal (digitChar (n % 10)) = n % 10 := by
        have hm : n % 10 < 10 := Nat.mod_lt n (by omega)
        simp [digitVal, digitChar_toNat (n % 10) hm]
      simp only [List.foldl_cons, List.foldl_nil, List.length_append, List.length_singleton]
      rw [hd]
      have hnm : 10 * (n / 10) + n % 10 = n := Nat.div_add_mod n 10
      ring_nf
      omega

theorem takeWhile_append_of_all (p : Char → Bool) :
    ∀ (l rest : List Char), (∀ c ∈ l, p c = true) →
      List.takeWhile p (l ++ rest) = l ++ List.takeWhile p rest
  | [], _, _ => rfl
  | c :: l, rest, h => by
    have hc : p c = true := h c (by simp)
    simp only [List.cons_append, List.takeWhile_cons, hc]
    simp [takeWhile_append_of_all p l rest (fun d hd => h d (by simp [hd]))]

theorem dropWhile_append_of_all (p : Char → Bool) :
    ∀ (l rest : List Char), (∀ c ∈ l, p c = true) →
      List.dropWhile p (l ++ rest) = List.dropWhile p rest
  | [], _, _ => rfl
  | c :: l, rest, h => by
    have hc : p c = true := h c (by simp)
    simp only [List.cons_append, List.dropWhile_cons, hc]
    exact dropWhile_append_of_all p l rest (fun d hd => h d (by simp [hd]))

theorem takeWhile_of_noLead (rest : List Char) (h : noLeadDigit rest = true) :
    List.takeWhile isDigitC rest = [] := by
  cases rest with
  | nil => rfl
  | cons c l =>
    simp [noLeadDigit] at h
    simp [List.takeWhile, h]

theorem dropWhile_of_noLead (rest : List Char) (h : noLeadDigit rest = true) :
    List.dropWhile isDigitC rest = rest := by
  cases rest with
  | nil => rfl
  | cons c l =>
    simp [noLeadDigit] at h
    simp [List.dropWhile, h]

/-- Reading back a rendered natural number recovers it exactly, provided no
further digit follows. -/
theorem parseNat_natChars (n : Nat) (rest : List Char) (h : noLeadDigit rest = true) :
    parseNat (natChars n ++ rest) = some (n, rest) := by
  have htake : List.takeWhile isDigitC (natChars n ++ rest) = natChars n := by
    rw [takeWhile_append_of_all isDigitC (natChars n) rest (natChars_digits n),
      takeWhile_of_noLead rest h, List.append_nil]
  have hdrop : List.dropWhile isDigitC (natChars n ++ rest) = rest := by
    rw [dropWhile_append_of_all isDigitC (natChars n) rest (natChars_digits n),
      dropWhile_of_noLead rest h]
  have hval : List.foldl (fun x c => x * 10 + digitVal c) 0 (natChars n) = n := by
    by_cases h0 : n = 0
    · subst h0; decide
    · rw [natChars, if_neg h0, natCharsAux_foldl n n 0 (le_refl n)]
      simp
  rw [parseNat]
  rw [htake]
  have hne := natChars_ne_nil n
  cases hnc : natChars n with
  | nil => exact absurd hnc hne
  | cons c l =>
    rw [hnc] at hval hdrop
    simp [hval]
    simpa using hdrop

/-- Reading back an escaped string body up to its closing quote recovers the
original characters and leaves exactly what followed the quote. -/
theorem parseStrBody_escChars : ∀ (cs rest : List Char),
    parseStrBody (escChars cs ++ (qc :: rest)) = some (cs, rest)
  | [], rest => by
    rw [escChars, List.nil_append, parseStrBody.eq_def]
    simp +decide
  | c :: cs, rest => by
    have ih := parseStrBody_escChars cs rest
    rw [escChars, List.append_assoc]
    by_cases h1 : c = qc
    · subst h1
      rw [show escChar qc = [bs, qc] from by decide]
      rw [List.cons_append, List.cons_append, List.nil_append, parseStrBody.eq_def]
      simp +decide [escVal, ih]
    · by_cases h2 : c = bs
      · subst h2
        rw [show escChar bs = [bs, bs] from by decide]
        rw [List.cons_append, List.cons_append, List.nil_append, parseStrBody.eq_def]
        simp +decide [escVal, ih]
      · by_cases h3 : c = Char.ofNat 8
        · subst h3
          rw [show escChar (Char.ofNat 8) = [bs, 'b'] from by decide]
          rw [List.cons_append, List.cons_append, List.nil_append, parseStrBody.eq_def]
          simp +decide [escVal, ih]
        · by_cases h4 : c = Char.ofNat 9
          · subst h4
            rw [show escChar (Char.ofNat 9) = [bs, 't'] from by decide]
            rw [List.cons_append, List.cons_append, List.nil_append, parseStrBody.eq_def]
            simp +decide [escVal, ih]
          · by_cases h5 : c = Char.ofNat 10
            · subst h5
              rw [show escChar (Char.ofNat 10) = [bs, 'n'] from by decide]
              rw [List.cons_append, List.cons_append, List.nil_append, parseStrBody.eq_def]
              simp +decide [escVal, ih]
            · by_cases h6 : c = Char.ofNat 12
              · subst h6
                rw [show escChar (Char.ofNat 12) = [bs, 'f'] from by decide]
                rw [List.cons_append, List.cons_append, List.nil_append, parseStrBody.eq_def]
                simp +decide [escVal, ih]
              · by_cases h7 : c = Char.ofNat 13
                · subst h7
                  rw [show escChar (Char.ofNat 13) = [bs, 'r'] from by decide]
                  rw [List.cons_append, List.cons_append, List.nil_append, parseStrBody.eq_def]
                  simp +decide [escVal, ih]
                · by_cases h8 : c.toNat < 32
                  · rw [show escChar c = [bs, 'u', '0', '0', hexChar (c.toNat / 16), hexChar (c.toNat % 16)] from by
                      simp [escChar, h1, h2, h3, h4, h5, h6, h7, h8]]
                    rw [List.cons_append, List.cons_append, List.cons_append, List.cons_append,
                      List.cons_append, List.cons_append, List.nil_append, parseStrBody.eq_def]
                    have hhi : hexVal (hexChar (c.toNat / 16)) = some (c.toNat / 16) :=
                      hexVal_hexChar (c.toNat / 16) (by omega)
                    have hlo : hexVal (hexChar (c.toNat % 16)) = some (c.toNat % 16) :=
                      hexVal_hexChar (c.toNat % 16) (by omega)
                    have hval : ((0 * 16 + 0) * 16 + c.toNat / 16) * 16 + c.toNat % 16 = c.toNat := by
                      omega
                    simp +decide [show hexVal '0' = some 0 from by decide, hhi, hlo, ih, hval,
                      Char.ofNat_toNat]
                    rw [show c.toNat / 16 * 16 + c.toNat % 16 = c.toNat from by omega,
                      Char.ofNat_toNat]
                  · rw [show escChar c = [c] from by
                      simp [escChar, h1, h2, h3, h4, h5, h6, h7, h8]]
                    rw [List.cons_append, List.nil_append, parseStrBody.eq_def]
                    simp +decide [h1, h2, h8, ih]

/-- A serialized value never starts with whitespace nor with a closing
bracket, so the reader's whitespace skip and end-of-array test leave it
alone.  The head is also never a comma or closing brace. -/
theorem serVal_head : ∀ v : JsValue, ∃ c t, serVal v = c :: t ∧
    isJsonWs c = false ∧ c ≠ ']' ∧ c ≠ ccb ∧ c ≠ ',' := by
  intro v
  cases v with
  | null => exact ⟨'n', _, rfl, by decide, by decide, by decide, by decide⟩
  | bool b => cases b with
    | true => exact ⟨'t', _, rfl, by decide, by decide, by decide, by decide⟩
    | false => exact ⟨'f', _, rfl, by decide, by decide, by decide, by decide⟩
  | str s => exact ⟨qc, _, rfl, by decide, by decide, by decide, by decide⟩
  | date s => exact ⟨qc, _, rfl, by decide, by decide, by decide, by decide⟩
  | arr xs => exact ⟨'[', _, rfl, by decide, by decide, by decide, by decide⟩
  | obj fs => exact ⟨ocb, _, rfl, by decide, by decide, by decide, by decide⟩
  | num n =>
    rw [serVal, intChars]
    by_cases hn : n < 0
    · rw [if_pos hn]
      exact ⟨'-', _, rfl, by decide, by decide, by decide, by decide⟩
    · rw [if_neg hn]
      cases hnc : natChars n.toNat with
      | nil => exact absurd hnc (natChars_ne_nil n.toNat)
      | cons c t =>
        have hd : isDigitC c = true := natChars_digits n.toNat c (by rw [hnc]; simp)
        rw [isDigitC_iff] at hd
        refine ⟨c, t, rfl, not_ws_of_digit_range c hd.1 hd.2, ?_, ?_, ?_⟩
        · exact char_ne_of_toNat_ne c ']' (by simpa using by omega)
        · exact char_ne_of_toNat_ne c ccb (by rw [show ccb.toNat = 125 from by decide]; omega)
        · exact char_ne_of_toNat_ne c ',' (by simpa using by omega)

mutual

/-- Structural size of a value: a fuel bound for the reader on its
serialized text. -/
def sizeV : JsValue → Nat
  | JsValue.arr xs => 2 + sizeL xs
  | JsValue.obj fs => 2 + sizeF fs
  | _ => 1

/-- Structural size of an element list. -/
def sizeL : List JsValue → Nat
  | [] => 0
  | x :: xs => 2 + sizeV x + sizeL xs

/-- Structural size of a field list. -/
def sizeF : List (String × JsValue) → Nat
  | [] => 0
  | (_, v) :: fs => 3 + sizeV v + sizeF fs

end

mutual

theorem sizeV_le : ∀ v : JsValue, sizeV v ≤ 3 * (serVal v).length
  | JsValue.null => by simp [sizeV, serVal]
  | JsValue.bool true => by simp [sizeV, serVal]
  | JsValue.bool false => by simp [sizeV, serVal]
  | JsValue.num n => by
    have h : (serVal (JsValue.num n)).length ≥ 1 := by
      obtain ⟨c, t, he, -⟩ := serVal_head (JsValue.num n)
      rw [he]; simp
    have e : sizeV (JsValue.num n) = 1 := rfl
    omega
  | JsValue.str s => by simp [sizeV, serVal, serStr]; omega
  | JsValue.date s => by simp [sizeV, serVal, serStr]; omega
  | JsValue.arr xs => by
    have h := sizeL_le xs
    simp only [sizeV, serVal, List.length_cons, List.length_append, List.length_singleton]
    omega
  | JsValue.obj fs => by
    have h := sizeF_le fs
    simp only [sizeV, serVal, List.length_cons, List.length_append, List.length_singleton]
    omega

theorem sizeL_le : ∀ xs : List JsValue, sizeL xs ≤ 3 * (serArr xs).length + 2
  | [] => by simp [sizeL, serArr]
  | [x] => by
    have h := sizeV_le x
    simp only [sizeL, serArr]
    omega
  | x :: y :: xs => by
    have h1 := sizeV_le x
    have h2 := sizeL_le (y :: xs)
    simp only [sizeL, serArr, List.length_append, List.length_cons] at h2 ⊢
    omega

theorem sizeF_le : ∀ fs : List (String × JsValue), sizeF fs ≤ 3 * (serObj fs).length + 2
  | [] => by simp [sizeF, serObj]
  | [(k, v)] => by
    have h := sizeV_le v
    have hk : (serStr k).length ≥ 2 := by simp [serStr]
    simp only [sizeF, serObj, List.length_append, List.length_cons] at *
    omega
  | (k, v) :: (k2, v2) :: fs => by
    have h1 := sizeV_le v
    have h2 := sizeF_le ((k2, v2) :: fs)
    simp only [sizeF, serObj, List.length_append, List.length_cons] at h2 ⊢
    omega

end

theorem numGuard_any (v : JsValue) (rest : List Char) (h : noLeadDigit rest = true) :
    numGuard v rest := by
  cases v <;> first | exact h | trivial

theorem noLeadDigit_cons (c : Char) (X : List Char) (h : isDigitC c = false) :
    noLeadDigit (c :: X) = true := by
  simp [noLeadDigit, h]

theorem data_asString (s : String) : s.data.asString = s := rfl

mutual

/-- Reading serialized text recovers the value, Dates turned into their ISO
strings, with any fuel at least the value's size. -/
theorem parseVal_complete : ∀ (v : JsValue) (fuel : Nat) (rest : List Char),
    sizeV v ≤ fuel → numGuard v rest →
    parseVal fuel (serVal v ++ rest) = some (stripDates v, rest)
  | JsValue.null, fuel, rest => by
    intro h hg
    obtain ⟨f, rfl⟩ : ∃ f, fuel = f + 1 :=
      ⟨fuel - 1, by have e : sizeV JsValue.null = 1 := rfl; omega⟩
    rw [show serVal JsValue.null = ['n', 'u', 'l', 'l'] from rfl,
      show stripDates JsValue.null = JsValue.null from rfl]
    rw [parseVal.eq_def]
    simp +decide [expectChars]
  | JsValue.bool true, fuel, rest => by
    intro h hg
    obtain ⟨f, rfl⟩ : ∃ f, fuel = f + 1 :=
      ⟨fuel - 1, by have e : sizeV (JsValue.bool true) = 1 := rfl; omega⟩
    rw [show serVal (JsValue.bool true) = ['t', 'r', 'u', 'e'] from rfl,
      show stripDates (JsValue.bool true) = JsValue.bool true from rfl]
    rw [parseVal.eq_def]
    simp +decide [expectChars]
  | JsValue.bool false, fuel, rest => by
    intro h hg
    obtain ⟨f, rfl⟩ : ∃ f, fuel = f + 1 :=
      ⟨fuel - 1, by have e : sizeV (JsValue.bool false) = 1 := rfl; omega⟩
    rw [show serVal (JsValue.bool false) = ['f', 'a', 'l', 's', 'e'] from rfl,
      show stripDates (JsValue.bool false) = JsValue.bool false from rfl]
    rw [parseVal.eq_def]
    simp +decide [expectChars]
  | JsValue.str s, fuel, rest => by
    intro h hg
    obtain ⟨f, rfl⟩ : ∃ f, fuel = f + 1 :=
      ⟨fuel - 1, by have e : sizeV (JsValue.str s) = 1 := rfl; omega⟩
    rw [show serVal (JsValue.str s) = qc :: (escChars s.data ++ [qc]) from rfl,
      show stripDates (JsValue.str s) = JsValue.str s from rfl]
    rw [List.cons_append, List.append_assoc, List.singleton_append]
    rw [parseVal.eq_def]
    simp +decide [parseStrBody_escChars s.data rest, data_asString]
  | JsValue.date iso, fuel, rest => by
    intro h hg
    obtain ⟨f, rfl⟩ : ∃ f, fuel = f + 1 :=
      ⟨fuel - 1, by have e : sizeV (JsValue.date iso) = 1 := rfl; omega⟩
    rw [show serVal (JsValue.date iso) = qc :: (escChars iso.data ++ [qc]) from rfl,
      show stripDates (JsValue.date iso) = JsValue.str iso from rfl]
    rw [List.cons_append, List.append_assoc, List.singleton_append]
    rw [parseVal.eq_def]
    simp +decide [parseStrBody_escChars iso.data rest, data_asString]
  | JsValue.num n, fuel, rest => by
    intro h hg
    obtain ⟨f, rfl⟩ : ∃ f, fuel = f + 1 :=
      ⟨fuel - 1, by have e : sizeV (JsValue.num n) = 1 := rfl; omega⟩
    have hg2 : noLeadDigit rest = true := hg
    rw [show serVal (JsValue.num n) = intChars n from rfl,
      show stripDates (JsValue.num n) = JsValue.num n from rfl]
    rw [intChars]
    by_cases hn : n < 0
    · rw [if_pos hn, List.cons_append]
      rw [parseVal.eq_def]
      simp +decide [parseNat_natChars n.natAbs rest hg2]
      rw [abs_of_neg hn, neg_neg]
    · rw [if_neg hn]
      cases hnc : natChars n.toNat with
      | nil => exact absurd hnc (natChars_ne_nil _)
      | cons c t =>
        have hd : isDigitC c = true := natChars_digits _ c (by rw [hnc]; simp)
        have hr := (isDigitC_iff c).mp hd
        have e1 : c ≠ qc := char_ne_of_toNat_ne c qc (by rw [show qc.toNat = 34 from by decide]; omega)
        have e2 : c ≠ '[' := char_ne_of_toNat_ne c '[' (by simp; omega)
        have e3 : c ≠ ocb := char_ne_of_toNat_ne c ocb (by rw [show ocb.toNat = 123 from by decide]; omega)
        have e4 : c ≠ 'n' := char_ne_of_toNat_ne c 'n' (by simp; omega)
        have e5 : c ≠ 't' := char_ne_of_toNat_ne c 't' (by simp; omega)
        have e6 : c ≠ 'f' := char_ne_of_toNat_ne c 'f' (by simp; omega)
        have e7 : c ≠ '-' := char_ne_of_toNat_ne c '-' (by simp; omega)
        have hpn : parseNat (natChars n.toNat ++ rest) = some (n.toNat, rest) :=
          parseNat_natChars _ rest hg2
        rw [hnc, List.cons_append] at hpn
        rw [List.cons_append]
        rw [parseVal.eq_def]
        simp +decide [e1, e2, e3, e4, e5, e6, e7, hd, hpn]
        omega
  | JsValue.arr xs, fuel, rest => by
    intro h hg
    have e : sizeV (JsValue.arr xs) = 2 + sizeL xs := rfl
    obtain ⟨f2, rfl⟩ : ∃ f2, fuel = f2 + 1 + 1 := ⟨fuel - 2, by omega⟩
    rw [show serVal (JsValue.arr xs) = '[' :: (serArr xs ++ [']']) from rfl,
      show stripDates (JsValue.arr xs) = JsValue.arr (stripDatesL xs) from rfl]
    rw [List.cons_append, List.append_assoc, List.singleton_append]
    rw [parseVal.eq_def]
    simp +decide only [if_pos, if_neg]
    cases xs with
    | nil =>
      rw [show serArr [] = ([] : List Char) from rfl,
        show stripDatesL [] = ([] : List JsValue) from rfl]
      rw [show skipWs ([] ++ (']' :: rest)) = ']' :: rest from by
        rw [List.nil_append]; exact skipWs_cons_of_not_ws ']' rest (by decide)]
      rw [parseArrTail.eq_def]
      simp +decide
    | cons x xs2 =>
      have hhead : ∃ c t2, serArr (x :: xs2) ++ (']' :: rest) = c :: t2 ∧
          isJsonWs c = false ∧ c ≠ ']' := by
        obtain ⟨c, t, he, hws, hne1, -, -⟩ := serVal_head x
        cases xs2 with
        | nil =>
          exact ⟨c, t ++ (']' :: rest), by
            rw [show serArr [x] = serVal x from rfl, he]; simp, hws, hne1⟩
        | cons y ys =>
          exact ⟨c, t ++ (',' :: (serArr (y :: ys) ++ (']' :: rest))), by
            rw [show serArr (x :: y :: ys) = serVal x ++ ',' :: serArr (y :: ys) from rfl, he]
            simp, hws, hne1⟩
      obtain ⟨c, t2, he2, hws, hne⟩ := hhead
      rw [he2, skipWs_cons_of_not_ws c t2 hws]
      rw [parseArrTail.eq_def]
      simp +decide [hne]
      rw [← he2, parseElems_complete (x :: xs2) f2 rest (by simp) (by
        have e1 : sizeL (x :: xs2) = 2 + sizeV x + sizeL xs2 := rfl
        omega)]
  | JsValue.obj fs, fuel, rest => by
    intro h hg
    have e : sizeV (JsValue.obj fs) = 2 + sizeF fs := rfl
    obtain ⟨f2, rfl⟩ : ∃ f2, fuel = f2 + 1 + 1 := ⟨fuel - 2, by omega⟩
    rw [show serVal (JsValue.obj fs) = ocb :: (serObj fs ++ [ccb]) from rfl,
      show stripDates (JsValue.obj fs) = JsValue.obj (stripDatesF fs) from rfl]
    rw [List.cons_append, List.append_assoc, List.singleton_append]
    rw [parseVal.eq_def]
    simp +decide only [if_pos, if_neg]
    cases fs with
    | nil =>
      rw [show serObj [] = ([] : List Char) from rfl,
        show stripDatesF [] = ([] : List (String × JsValue)) from rfl]
      rw [show skipWs ([] ++ (ccb :: rest)) = ccb :: rest from by
        rw [List.nil_append]; exact skipWs_cons_of_not_ws ccb rest (by decide)]
      rw [parseObjTail.eq_def]
      simp +decide
    | cons kv fs2 =>
      rcases kv with ⟨k, v⟩
      have hhead : ∃ t2, serObj ((k, v) :: fs2) ++ (ccb :: rest) = qc :: t2 := by
        cases fs2 with
        | nil =>
          exact ⟨escChars k.data ++ (qc :: (':' :: (serVal v ++ (ccb :: rest)))), by
            rw [show serObj [(k, v)] = serStr k ++ ':' :: serVal v from rfl, serStr]; simp⟩
        | cons f2v fs3 =>
          rcases f2v with ⟨k2, v2⟩
          exact ⟨escChars k.data ++
              (qc :: (':' :: (serVal v ++ (',' :: (serObj ((k2, v2) :: fs3) ++ (ccb :: rest)))))), by
            rw [show serObj ((k, v) :: (k2, v2) :: fs3) =
              serStr k ++ ':' :: serVal v ++ ',' :: serObj ((k2, v2) :: fs3) from rfl, serStr]
            simp⟩
      obtain ⟨t2, he2⟩ := hhead
      rw [he2, skipWs_cons_of_not_ws qc t2 (by decide)]
      rw [parseObjTail.eq_def]
      simp +decide
      rw [← he2, parseFields_complete ((k, v) :: fs2) f2 rest (by simp) (by
        have e1 : sizeF ((k, v) :: fs2) = 3 + sizeV v + sizeF fs2 := rfl
        omega)]

theorem parseElems_complete : ∀ (xs : List JsValue) (fuel : Nat) (rest : List Char),
    xs ≠ [] → sizeL xs ≤ fuel →
    parseElems fuel (serArr xs ++ (']' :: rest)) = some (stripDatesL xs, rest)
  | [], _, _ => by intro hne _; exact absurd rfl hne
  | x :: xs, fuel, rest => by
    intro hne h
    have e0 : sizeL (x :: xs) = 2 + sizeV x + sizeL xs := rfl
    obtain ⟨f, rfl⟩ : ∃ f, fuel = f + 1 := ⟨fuel - 1, by omega⟩
    cases xs with
    | nil =>
      have e00 : sizeL ([] : List JsValue) = 0 := rfl
      rw [show serArr [x] = serVal x from rfl,
        show stripDatesL [x] = [stripDates x] from rfl]
      have hx := parseVal_complete x f (']' :: rest) (by omega)
        (numGuard_any x _ (noLeadDigit_cons ']' rest (by decide)))
      rw [parseElems.eq_def]
      simp only [hx]
      rw [show skipWs (']' :: rest) = ']' :: rest from skipWs_cons_of_not_ws ']' rest (by decide)]
      obtain ⟨f2, rfl⟩ : ∃ f2, f = f2 + 1 := ⟨f - 1, by omega⟩
      rw [parseElemsSep.eq_def]
      simp +decide
    | cons y ys =>
      rw [show serArr (x :: y :: ys) = serVal x ++ ',' :: serArr (y :: ys) from rfl,
        show stripDatesL (x :: y :: ys) = stripDates x :: stripDatesL (y :: ys) from rfl]
      rw [List.append_assoc, List.cons_append]
      have hx := parseVal_complete x f (',' :: (serArr (y :: ys) ++ ']' :: rest)) (by omega)
        (numGuard_any x _ (noLeadDigit_cons ',' _ (by decide)))
      rw [parseElems.eq_def]
      simp only [hx]
      rw [show skipWs (',' :: (serArr (y :: ys) ++ ']' :: rest)) =
        ',' :: (serArr (y :: ys) ++ ']' :: rest) from skipWs_cons_of_not_ws ',' _ (by decide)]
      obtain ⟨f2, rfl⟩ : ∃ f2, f = f2 + 1 := ⟨f - 1, by omega⟩
      rw [parseElemsSep.eq_def]
      simp +decide only [if_pos, if_neg]
      have hy : ∃ c t2, serArr (y :: ys) ++ (']' :: rest) = c :: t2 ∧ isJsonWs c = false := by
        obtain ⟨c, t, he, hws, -, -, -⟩ := serVal_head y
        cases ys with
        | nil =>
          exact ⟨c, t ++ (']' :: rest), by
            rw [show serArr [y] = serVal y from rfl, he]; simp, hws⟩
        | cons z zs =>
          exact ⟨c, t ++ (',' :: (serArr (z :: zs) ++ (']' :: rest))), by
            rw [show serArr (y :: z :: zs) = serVal y ++ ',' :: serArr (z :: zs) from rfl, he]
            simp, hws⟩
      obtain ⟨c, t2, he2, hws⟩ := hy
      rw [he2, skipWs_cons_of_not_ws c t2 hws, ← he2]
      rw [parseElems_complete (y :: ys) f2 rest (by simp) (by
        have e1 : sizeL (y :: ys) = 2 + sizeV y + sizeL ys := rfl
        omega)]

theorem parseFields_complete : ∀ (fs : List (String × JsValue)) (fuel : Nat) (rest : List Char),
    fs ≠ [] → sizeF fs ≤ fuel →
    parseFields fuel (serObj fs ++ (ccb :: rest)) = some (stripDatesF fs, rest)
  | [], _, _ => by intro hne _; exact absurd rfl hne
  | (k, v) :: fs, fuel, rest => by
    intro hne h
    have e0 : sizeF ((k, v) :: fs) = 3 + sizeV v + sizeF fs := rfl
    obtain ⟨f, rfl⟩ : ∃ f, fuel = f + 1 := ⟨fuel - 1, by omega⟩
    cases fs with
    | nil =>
      have e00 : sizeF ([] : List (String × JsValue)) = 0 := rfl
      rw [show serObj [(k, v)] = serStr k ++ ':' :: serVal v from rfl,
        show stripDatesF [(k, v)] = [(k, stripDates v)] from rfl, serStr]
      simp only [List.cons_append, List.append_assoc, List.singleton_append, List.nil_append]
      rw [parseFields.eq_def]
      simp +decide only [if_pos]
      rw [parseStrBody_escChars k.data (':' :: (serVal v ++ ccb :: rest))]
      simp only [data_asString]
      rw [show skipWs (':' :: (serVal v ++ ccb :: rest)) =
        ':' :: (serVal v ++ ccb :: rest) from skipWs_cons_of_not_ws ':' _ (by decide)]
      obtain ⟨f2, rfl⟩ : ∃ f2, f = f2 + 1 := ⟨f - 1, by omega⟩
      rw [parseFieldsColon.eq_def]
      simp +decide only [if_pos]
      have hv : ∃ c t2, serVal v ++ (ccb :: rest) = c :: t2 ∧ isJsonWs c = false := by
        obtain ⟨c, t, he, hws, -, -, -⟩ := serVal_head v
        exact ⟨c, t ++ (ccb :: rest), by rw [he]; simp, hws⟩
      obtain ⟨c, t2, he2, hws⟩ := hv
      rw [he2, skipWs_cons_of_not_ws c t2 hws, ← he2]
      rw [parseVal_complete v f2 (ccb :: rest) (by omega)
        (numGuard_any v _ (noLeadDigit_cons ccb rest (by decide)))]
      simp only []
      rw [show skipWs (ccb :: rest) = ccb :: rest from skipWs_cons_of_not_ws ccb rest (by decide)]
      obtain ⟨f3, rfl⟩ : ∃ f3, f2 = f3 + 1 := ⟨f2 - 1, by omega⟩
      rw [parseFieldsSep.eq_def]
      simp +decide
    | cons fld fs2 =>
      rcases fld with ⟨k2, v2⟩
      rw [show serObj ((k, v) :: (k2, v2) :: fs2) =
          serStr k ++ ':' :: serVal v ++ ',' :: serObj ((k2, v2) :: fs2) from rfl,
        show stripDatesF ((k, v) :: (k2, v2) :: fs2) =
          (k, stripDates v) :: stripDatesF ((k2, v2) :: fs2) from rfl, serStr]
      simp only [List.cons_append, List.append_assoc, List.singleton_append, List.nil_append]
      rw [parseFields.eq_def]
      simp +decide only [if_pos]
      rw [parseStrBody_escChars k.data
        (':' :: (serVal v ++ (',' :: (serObj ((k2, v2) :: fs2) ++ ccb :: rest))))]
      simp only [data_asString]
      rw [show skipWs (':' :: (serVal v ++ (',' :: (serObj ((k2, v2) :: fs2) ++ ccb :: rest)))) =
        ':' :: (serVal v ++ (',' :: (serObj ((k2, v2) :: fs2) ++ ccb :: rest))) from
        skipWs_cons_of_not_ws ':' _ (by decide)]
      obtain ⟨f2, rfl⟩ : ∃ f2, f = f2 + 1 := ⟨f - 1, by omega⟩
      rw [parseFieldsColon.eq_def]
      simp +decide only [if_pos]
      have hv : ∃ c t2, serVal v ++ (',' :: (serObj ((k2, v2) :: fs2) ++ ccb :: rest)) = c :: t2 ∧
          isJsonWs c = false := by
        obtain ⟨c, t, he, hws, -, -, -⟩ := serVal_head v
        exact ⟨c, t ++ (',' :: (serObj ((k2, v2) :: fs2) ++ ccb :: rest)), by rw [he]; simp, hws⟩
      obtain ⟨c, t2, he2, hws⟩ := hv
      rw [he2, skipWs_cons_of_not_ws c t2 hws, ← he2]
      rw [parseVal_complete v f2 (',' :: (serObj ((k2, v2) :: fs2) ++ ccb :: rest)) (by omega)
        (numGuard_any v _ (noLeadDigit_cons ',' _ (by decide)))]
      simp only []
      rw [show skipWs (',' :: (serObj ((k2, v2) :: fs2) ++ ccb :: rest)) =
        ',' :: (serObj ((k2, v2) :: fs2) ++ ccb :: rest) from skipWs_cons_of_not_ws ',' _ (by decide)]
      obtain ⟨f3, rfl⟩ : ∃ f3, f2 = f3 + 1 := ⟨f2 - 1, by omega⟩
      rw [parseFieldsSep.eq_def]
      simp +decide only [if_pos, if_neg]
      have hk2 : ∃ t3, serObj ((k2, v2) :: fs2) ++ (ccb :: rest) = qc :: t3 := by
        cases fs2 with
        | nil =>
          exact ⟨escChars k2.data ++ (qc :: (':' :: (serVal v2 ++ (ccb :: rest)))), by
            rw [show serObj [(k2, v2)] = serStr k2 ++ ':' :: serVal v2 from rfl, serStr]; simp⟩
        | cons f3v fs3 =>
          rcases f3v with ⟨k3, v3⟩
          exact ⟨escChars k2.data ++
              (qc :: (':' :: (serVal v2 ++ (',' :: (serObj ((k3, v3) :: fs3) ++ (ccb :: rest)))))), by
            rw [show serObj ((k2, v2) :: (k3, v3) :: fs3) =
              serStr k2 ++ ':' :: serVal v2 ++ ',' :: serObj ((k3, v3) :: fs3) from rfl, serStr]
            simp⟩
      obtain ⟨t3, he3⟩ := hk2
      rw [he3, skipWs_cons_of_not_ws qc t3 (by decide), ← he3]
      rw [parseFields_complete ((k2, v2) :: fs2) f3 rest (by simp) (by
        have e1 : sizeF ((k2, v2) :: fs2) = 3 + sizeV v2 + sizeF fs2 := rfl
        omega)]

end

/-- The round trip through the persisted representation: parsing what the
serializer wrote yields the original value with each Date leaf replaced by
its ISO string. -/
theorem jsonParse_jsonStringify (v : JsValue) :
    jsonParse (jsonStringify v) = some (stripDates v) := by
  obtain ⟨c, t, he, hws, -, -, -⟩ := serVal_head v
  have hdata : ((serVal v).asString).data = serVal v := rfl
  rw [jsonStringify, jsonParse, hdata]
  rw [show skipWs (serVal v) = serVal v from by rw [he]; exact skipWs_cons_of_not_ws c t hws]
  have hp := parseVal_complete v (3 * (serVal v).length + 3) []
    (by have := sizeV_le v; omega) (numGuard_any v [] rfl)
  rw [List.append_nil] at hp
  rw [hp]
  simp [skipWs]

/-! ## The data model (src/types.ts)

The record shapes of types.ts, with string-literal unions as inductives.
JavaScript numbers are modelled as integers: none of the numeric fields
below is ever written by any code path of the repository, so no fractional
value can arise.  A TypeScript optional field (marked with a question mark)
becomes an Option that is omitted from the JSON object when absent, while a
nullable field (a union with null) becomes an Option serialized as null.
The two Record fields of Workspace are free-form maps the core never
populates; they are modelled with string entries.  The export field of
Project is renamed exportMeta, export being a Lean keyword. -/

inductive Role where
  | user : Role
  | assistant : Role
deriving DecidableEq

/-- The JSON text of a role. -/
def Role.toStr : Role → String
  | Role.user => "user"
  | Role.assistant => "assistant"

inductive Category where
  | frontend : Category
  | backend : Category
  | database : Category
  | config : Category
deriving DecidableEq

/-- The JSON text of a snippet category. -/
def Category.toStr : Category → String
  | Category.frontend => "frontend"
  | Category.backend => "backend"
  | Category.database => "database"
  | Category.config => "config"

inductive ProjectStatus where
  | active : ProjectStatus
  | paused : ProjectStatus
  | archived : ProjectStatus
deriving DecidableEq

/-- The JSON text of a project status. -/
def ProjectStatus.toStr : ProjectStatus → String
  | ProjectStatus.active => "active"
  | ProjectStatus.paused => "paused"
  | ProjectStatus.archived => "archived"

inductive ProjectPhase where
  | onboarding : ProjectPhase
  | architecture : ProjectPhase
  | build : ProjectPhase
  | debug : ProjectPhase
  | deploy : ProjectPhase
deriving DecidableEq

/-- The JSON text of a project phase. -/
def ProjectPhase.toStr : ProjectPhase → String
  | ProjectPhase.onboarding => "onboarding"
  | ProjectPhase.architecture => "architecture"
  | ProjectPhase.build => "build"
  | ProjectPhase.debug => "debug"
  | ProjectPhase.deploy => "deploy"

inductive CloudStatus where
  | synced : CloudStatus
  | unsynced : CloudStatus
  | syncing : CloudStatus
  | conflict : CloudStatus
deriving DecidableEq

/-- The JSON text of a cloud status. -/
def CloudStatus.toStr : CloudStatus → String
  | CloudStatus.synced => "synced"
  | CloudStatus.unsynced => "unsynced"
  | CloudStatus.syncing => "syncing"
  | CloudStatus.conflict => "conflict"

inductive SnapshotReason where
  | auto : SnapshotReason
  | manual : SnapshotReason
  | recovery : SnapshotReason
deriving DecidableEq

/-- The JSON text of a snapshot reason. -/
def SnapshotReason.toStr : SnapshotReason → String
  | SnapshotReason.auto => "auto"
  | SnapshotReason.manual => "manual"
  | SnapshotReason.recovery => "recovery"

inductive TestResultState where
  | passed : TestResultState
  | failed : TestResultState
  | pending : TestResultState
deriving DecidableEq

/-- The JSON text of a snippet test result. -/
def TestResultState.toStr : TestResultState → String
  | TestResultState.passed => "passed"
  | TestResultState.failed => "failed"
  | TestResultState.pending => "pending"

inductive AutonomousState where
  | planning : AutonomousState
  | executing : AutonomousState
  | validating : AutonomousState
  | deploying : AutonomousState
deriving DecidableEq

/-- The JSON text of an autonomous state. -/
def AutonomousState.toStr : AutonomousState → String
  | AutonomousState.planning => "planning"
  | AutonomousState.executing => "executing"
  | AutonomousState.validating => "validating"
  | AutonomousState.deploying => "deploying"

inductive SimNodeType where
  | frontend : SimNodeType
  | backend : SimNodeType
  | database : SimNodeType
  | service : SimNodeType
  | deployment : SimNodeType
deriving DecidableEq

/-- The JSON text of a simulation node type. -/
def SimNodeType.toStr : SimNodeType → String
  | SimNodeType.frontend => "frontend"
  | SimNodeType.backend => "backend"
  | SimNodeType.database => "database"
  | SimNodeType.service => "service"
  | SimNodeType.deployment => "deployment"

inductive SimNodeStatus where
  | optimal : SimNodeStatus
  | bottleneck : SimNodeStatus
  | risk : SimNodeStatus
deriving DecidableEq

/-- The JSON text of a simulation node status. -/
def SimNodeStatus.toStr : SimNodeStatus → String
  | SimNodeStatus.optimal => "optimal"
  | SimNodeStatus.bottleneck => "bottleneck"
  | SimNodeStatus.risk => "risk"

inductive SimLinkType where
  | sync : SimLinkType
  | async : SimLinkType
deriving DecidableEq

/-- The JSON text of a simulation link type. -/
def SimLinkType.toStr : SimLinkType → String
  | SimLinkType.sync => "sync"
  | SimLinkType.async => "async"

inductive SimLinkStatus where
  | stable : SimLinkStatus
  | conflicting : SimLinkStatus
deriving DecidableEq

/-- The JSON text of a simulation link status. -/
def SimLinkStatus.toStr : SimLinkStatus → String
  | SimLinkStatus.stable => "stable"
  | SimLinkStatus.conflicting => "conflicting"

/-- GitHub repository visibility; the constructors carry a Repo suffix
because public and private are Lean keywords. -/
inductive Visibility where
  | publicRepo : Visibility
  | privateRepo : Visibility
deriving DecidableEq

/-- The JSON text of a visibility. -/
def Visibility.toStr : Visibility → String
  | Visibility.publicRepo => "public"
  | Visibility.privateRepo => "private"

/-- A JavaScript Date object as the program observes it: the epoch
milliseconds Date.now and toString expose, and the ISO-8601 text that
toISOString and toJSON return.  The calendar rendering is the runtime's,
external to this embedding, so the two representations are carried together
rather than one computed from the other. -/
structure JsDate where
  millis : Nat
  iso : String
deriving DecidableEq

structure MetaInsight where
  confidence : Int
  predictions : List String
  alternatives : Option (List String)
  evaluation : Option String
  systemHealth : Option Int
  autonomousState : Option AutonomousState
deriving DecidableEq

structure SimulationNode where
  id : String
  label : String
  type : SimNodeType
  status : SimNodeStatus
deriving DecidableEq

structure SimulationLink where
  source : String
  target : String
  type : SimLinkType
  status : SimLinkStatus
deriving DecidableEq

structure SimulationResult where
  nodes : List SimulationNode
  links : List SimulationLink
  risks : List String
  summary : String
  architectureScore : Int
  deploymentPath : Option String
deriving DecidableEq

structure Message where
  id : String
  role : Role
  content : String
  timestamp : JsDate
  meta : Option MetaInsight
  simulation : Option SimulationResult
deriving DecidableEq

structure CodeSnippet where
  id : String
  filename : String
  language : String
  code : String
  category : Category
  explanation : String
  confidence : Option Int
  lineConfidences : Option (List Int)
  testResults : Option TestResultState
deriving DecidableEq

structure Workspace where
  messages : List Message
  snippets : List CodeSnippet
  simulation : Option SimulationResult
  decisions : List String
  agentAssignments : List (String × String)
  memoryContext : List (String × String)
deriving DecidableEq

structure SnapshotState where
  messages : List Message
  snippets : List CodeSnippet
  simulation : Option SimulationResult
deriving DecidableEq

structure Snapshot where
  snapshotId : String
  timestamp : String
  reason : SnapshotReason
  summary : String
  state : SnapshotState
deriving DecidableEq

structure SyncMetadata where
  lastSyncedAt : Option String
  checksum : Option String
  cloudStatus : CloudStatus
deriving DecidableEq

structure GitHubMetadata where
  repoName : Option String
  visibility : Visibility
  lastExportedAt : Option String
  repoUrl : Option String
deriving DecidableEq

structure Project where
  projectId : String
  name : String
  description : String
  createdAt : String
  lastModified : String
  status : ProjectStatus
  currentPhase : ProjectPhase
  aiPersona : String
  workspace : Workspace
  snapshots : List Snapshot
  sync : SyncMetadata
  exportMeta : Option GitHubMetadata
deriving DecidableEq

/-! ## Encoding the model into JavaScript values

What JSON.stringify serializes is the runtime object graph; these encoders
produce that graph for each record, with fields in the order the source
creates them (which is the order JSON.stringify writes).  An absent optional
field contributes nothing; a nullable field contributes null. -/

/-- One field when the optional value is present, nothing when absent. -/
def optField (k : String) : Option JsValue → List (String × JsValue)
  | some v => [(k, v)]
  | none => []

/-- A nullable string position. -/
def encodeOptStr : Option String → JsValue
  | some s => JsValue.str s
  | none => JsValue.null

/-- A Record of string entries. -/
def encodeRecord (entries : List (String × String)) : JsValue :=
  JsValue.obj (entries.map fun kv => (kv.1, JsValue.str kv.2))

def encodeMetaInsight (m : MetaInsight) : JsValue :=
  JsValue.obj ([("confidence", JsValue.num m.confidence),
    ("predictions", JsValue.arr (m.predictions.map JsValue.str))] ++
    optField "alternatives" (m.alternatives.map fun l => JsValue.arr (l.map JsValue.str)) ++
    optField "evaluation" (m.evaluation.map JsValue.str) ++
    optField "systemHealth" (m.systemHealth.map JsValue.num) ++
    optField "autonomousState" (m.autonomousState.map fun a => JsValue.str a.toStr))

def encodeSimNode (n : SimulationNode) : JsValue :=
  JsValue.obj [("id", JsValue.str n.id), ("label", JsValue.str n.label),
    ("type", JsValue.str n.type.toStr), ("status", JsValue.str n.status.toStr)]

def encodeSimLink (l : SimulationLink) : JsValue :=
  JsValue.obj [("source", JsValue.str l.source), ("target", JsValue.str l.target),
    ("type", JsValue.str l.type.toStr), ("status", JsValue.str l.status.toStr)]

def encodeSimResult (r : SimulationResult) : JsValue :=
  JsValue.obj ([("nodes", JsValue.arr (r.nodes.map encodeSimNode)),
    ("links", JsValue.arr (r.links.map encodeSimLink)),
    ("risks", JsValue.arr (r.risks.map JsValue.str)),
    ("summary", JsValue.str r.summary),
    ("architectureScore", JsValue.num r.architectureScore)] ++
    optField "deploymentPath" (r.deploymentPath.map JsValue.str))

/-- A nullable simulation position. -/
def encodeSimOrNull : Option SimulationResult → JsValue
  | some r => encodeSimResult r
  | none => JsValue.null

def encodeMessage (m : Message) : JsValue :=
  JsValue.obj ([("id", JsValue.str m.id), ("role", JsValue.str m.role.toStr),
    ("content", JsValue.str m.content), ("timestamp", JsValue.date m.timestamp.iso)] ++
    optField "meta" (m.meta.map encodeMetaInsight) ++
    optField "simulation" (m.simulation.map encodeSimResult))

def encodeSnippet (s : CodeSnippet) : JsValue :=
  JsValue.obj ([("id", JsValue.str s.id), ("filename", JsValue.str s.filename),
    ("language", JsValue.str s.language), ("code", JsValue.str s.code),
    ("category", JsValue.str s.category.toStr), ("explanation", JsValue.str s.explanation)] ++
    optField "confidence" (s.confidence.map JsValue.num) ++
    optField "lineConfidences" (s.lineConfidences.map fun l => JsValue.arr (l.map JsValue.num)) ++
    optField "testResults" (s.testResults.map fun t => JsValue.str t.toStr))

def encodeWorkspace (w : Workspace) : JsValue :=
  JsValue.obj [("messages", JsValue.arr (w.messages.map encodeMessage)),
    ("snippets", JsValue.arr (w.snippets.map encodeSnippet)),
    ("simulation", encodeSimOrNull w.simulation),
    ("decisions", JsValue.arr (w.decisions.map JsValue.str)),
    ("agentAssignments", encodeRecord w.agentAssignments),
    ("memoryContext", encodeRecord w.memoryContext)]

def encodeSnapshot (s : Snapshot) : JsValue :=
  JsValue.obj [("snapshotId", JsValue.str s.snapshotId),
    ("timestamp", JsValue.str s.timestamp),
    ("reason", JsValue.str s.reason.toStr),
    ("summary", JsValue.str s.summary),
    ("state", JsValue.obj [("messages", JsValue.arr (s.state.messages.map encodeMessage)),
      ("snippets", JsValue.arr (s.state.snippets.map encodeSnippet)),
      ("simulation", encodeSimOrNull s.state.simulation)])]

def encodeSync (s : SyncMetadata) : JsValue :=
  JsValue.obj [("lastSyncedAt", encodeOptStr s.lastSyncedAt),
    ("checksum", encodeOptStr s.checksum),
    ("cloudStatus", JsValue.str s.cloudStatus.toStr)]

def encodeGitHub (g : GitHubMetadata) : JsValue :=
  JsValue.obj [("repoName", encodeOptStr g.repoName),
    ("visibility", JsValue.str g.visibility.toStr),
    ("lastExportedAt", encodeOptStr g.lastExportedAt),
    ("repoUrl", encodeOptStr g.repoUrl)]

def encodeProject (p : Project) : JsValue :=
  JsValue.obj ([("projectId", JsValue.str p.projectId), ("name", JsValue.str p.name),
    ("description", JsValue.str p.description), ("createdAt", JsValue.str p.createdAt),
    ("lastModified", JsValue.str p.lastModified), ("status", JsValue.str p.status.toStr),
    ("currentPhase", JsValue.str p.currentPhase.toStr), ("aiPersona", JsValue.str p.aiPersona),
    ("workspace", encodeWorkspace p.workspace),
    ("snapshots", JsValue.arr (p.snapshots.map encodeSnapshot)),
    ("sync", encodeSync p.sync)] ++
    optField "export" (p.exportMeta.map encodeGitHub))

def encodeProjectList (ps : List Project) : JsValue :=
  JsValue.arr (ps.map encodeProject)

/-! ## The fence scanner

addMessage (src/unnamed/part_000, lines 534-550) extracts code with the
global regex matching three backticks, an optional word run as the language
tag, a newline, then a lazily matched body up to the next three backticks.
The model mirrors the engine: a match is attempted at each position from
left to right; at a position the greedy-but-backtracking optional word run
succeeds exactly when the character after the maximal run is the newline;
the lazy body ends at the first closing fence, and with no closing fence the
position fails and the scan advances one character; after a match the scan
resumes past it. -/

/-- The word characters of the regex class: letters, digits and the
underscore. -/
def isWordChar (c : Char) : Bool :=
  (65 ≤ c.toNat && c.toNat ≤ 90) || (97 ≤ c.toNat && c.toNat ≤ 122) ||
    (48 ≤ c.toNat && c.toNat ≤ 57) || c.toNat = 95

/-- The backtick character. -/
def btk : Char := Char.ofNat 96

/-- Split at the first closing triple backtick: the lazily matched body and
what follows the fence; none when no closing fence exists. -/
def findClose : List Char → Option (List Char × List Char)
  | c1 :: c2 :: c3 :: r =>
    if c1 = btk ∧ c2 = btk ∧ c3 = btk then some ([], r)
    else
      match findClose (c2 :: c3 :: r) with
      | some (body, rest) => some (c1 :: body, rest)
      | none => none
  | _ => none

/-- The fence pattern anchored at the head of the text. -/
def fenceAt (l : List Char) : Option (Option String × String × List Char) :=
  match l with
  | c1 :: c2 :: c3 :: r =>
    if c1 = btk ∧ c2 = btk ∧ c3 = btk then
      let w := r.takeWhile isWordChar
      match r.dropWhile isWordChar with
      | nl :: r2 =>
        if nl = Char.ofNat 10 then
          match findClose r2 with
          | some (body, rest) =>
            some (if w = [] then none else some w.asString, body.asString, rest)
          | none => none
        else none
      | [] => none
    else none
  | _ => none

/-- One step of fuel per position visited; matches consume at least seven
characters, so one unit per character is always enough. -/
def scanFencesAux : Nat → List Char → List (Option String × String)
  | 0, _ => []
  | _ + 1, [] => []
  | fuel + 1, c :: cs =>
    match fenceAt (c :: cs) with
    | some (lang, body, rest) => (lang, body) :: scanFencesAux fuel rest
    | none => scanFencesAux fuel cs

/-- All fenced regions of the text, in source order: language tag if present
and raw body of each. -/
def scanFences (l : List Char) : List (Option String × String) := scanFencesAux l.length l

/-! ## The category marker

Inside a code body the source looks for the first position matching two
slashes, optional whitespace, the word Category with a colon
(case-insensitively), optional whitespace, and one of the four category
words (case-insensitively, in the alternation's order); the capture is
lower-cased, so the match is the category itself. -/

/-- The regex whitespace class, in its ASCII range; the Unicode space
characters never occur in the repository's marker comments. -/
def isJsWsChar (c : Char) : Bool :=
  c = ' ' || c = Char.ofNat 9 || c = Char.ofNat 10 || c = Char.ofNat 13 ||
    c = Char.ofNat 11 || c = Char.ofNat 12

/-- Case-insensitive match of a lower-case literal against the head of the
text, returning the remainder. -/
def matchCi : List Char → List Char → Option (List Char)
  | [], l => some l
  | p :: ps, c :: l => if c.toLower = p then matchCi ps l else none
  | _ :: _, [] => none

/-- The marker pattern anchored at the head of the text. -/
def categoryAt (l : List Char) : Option Category :=
  match l with
  | c1 :: c2 :: r =>
    if c1 = '/' ∧ c2 = '/' then
      match matchCi ("category:".data) (r.dropWhile isJsWsChar) with
      | some r3 =>
        let r4 := r3.dropWhile isJsWsChar
        if (matchCi ("frontend".data) r4).isSome then some Category.frontend
        else if (matchCi ("backend".data) r4).isSome then some Category.backend
        else if (matchCi ("database".data) r4).isSome then some Category.database
        else if (matchCi ("config".data) r4).isSome then some Category.config
        else none
      | none => none
    else none
  | _ => none

/-- The first marker match in the text, scanning positions left to right. -/
def findCategory : List Char → Option Category
  | [] => none
  | c :: cs =>
    match categoryAt (c :: cs) with
    | some cat => some cat
    | none => findCategory cs

/-! ## Application state and operations (src/unnamed/part_000)

The pieces of React state the two logic components read or write, as one
record; the theme, timers and other purely visual state are out of scope.
The external collaborators enter through Env: the clock observed during one
call (the source reads Date.now and new Date several times within
microseconds; the model takes one instant per call) and the stream of
crypto.randomUUID results.  localStorage is the storage field. -/

inductive IntelligenceState where
  | idle : IntelligenceState
  | listening : IntelligenceState
  | thinking : IntelligenceState
  | building : IntelligenceState
deriving DecidableEq

inductive AgentID where
  | architect : AgentID
  | builder : AgentID
  | reviewer : AgentID
deriving DecidableEq

structure Env where
  now : JsDate
  uuid : Nat → String

structure AppState where
  projects : List Project
  currentProject : Option Project
  storage : Option String
  previewContent : String
  selectedSnippetId : Option String
  isSynthesizing : Bool
  intelligenceState : IntelligenceState
  intelligenceMessage : String
  activeAgents : List AgentID
deriving DecidableEq

/-- saveProjects (lines 495-498): serialize the full list into the
codexpro_projects key and replace the in-memory list. -/
def saveProjects (st : AppState) (list : List Project) : AppState :=
  { st with storage := some (jsonStringify (encodeProjectList list)), projects := list }

/-- An empty Workspace, as createProject builds one. -/
def emptyWorkspace : Workspace :=
  { messages := [], snippets := [], simulation := none, decisions := [],
    agentAssignments := [], memoryContext := [] }

/-- createProject (lines 500-518).  The name falls back to the generated one
both when no name is supplied and when the empty string is, the source using
JavaScript's or-else on a string; the new record goes to the front of the
list, the list is saved at once, and the new project becomes current. -/
def createProject (env : Env) (st : AppState) (name : Option String) : AppState × Project :=
  let newProject : Project :=
    { projectId := env.uuid 0
      name := match name with
        | some s => if s = "" then "Mission " ++ toString (st.projects.length + 1) else s
        | none => "Mission " ++ toString (st.projects.length + 1)
      description := "Autonomous engineering session."
      createdAt := env.now.iso
      lastModified := env.now.iso
      status := ProjectStatus.active
      currentPhase := ProjectPhase.onboarding
      aiPersona := "CodexPro-Alpha"
      workspace := emptyWorkspace
      snapshots := []
      sync := { lastSyncedAt := none, checksum := none, cloudStatus := CloudStatus.unsynced }
      exportMeta := none }
  let st2 := saveProjects st (newProject :: st.projects)
  ({ st2 with currentProject := some newProject }, newProject)

/-- Date.now().toString(): the decimal text of the epoch milliseconds. -/
def millisStr (d : JsDate) : String := (natChars d.millis).asString

/-- s.slice(-4): the last four characters, or the whole string when it is
shorter. -/
def sliceLast4 (s : String) : String := (s.data.drop (s.data.length - 4)).asString

/-- One extracted snippet (lines 538-548): the i-th region's language tag or
the default, the raw body, the category read from the body's marker comment
or the frontend default, a filename from the category and the clock's last
four digits, and fixed explanation; the diagnostic optional fields are not
set. -/
def mkSnippet (env : Env) (i : Nat) (lang : Option String) (code : String) : CodeSnippet :=
  let category := (findCategory code.data).getD Category.frontend
  { id := env.uuid i
    filename := category.toStr ++ "-" ++ sliceLast4 (millisStr env.now) ++ ".tsx"
    language := lang.getD "typescript"
    code := code
    category := category
    explanation := "Synthesized."
    confidence := none
    lineConfidences := none
    testResults := none }

/-- All snippets of one content, in source order. -/
def extractSnippets (env : Env) (content : String) : List CodeSnippet :=
  (scanFences content.data).enum.map fun p => mkSnippet env p.1 p.2.1 p.2.2

/-- The Message addMessage builds (line 524). -/
def mkMessage (env : Env) (role : Role) (content : String) : Message :=
  { id := millisStr env.now, role := role, content := content, timestamp := env.now,
    meta := none, simulation := none }

/-- Replace the record with the matching projectId, pushing the record at
the end when no entry matches (lines 558-559). -/
def replaceOrAppend (ps : List Project) (p : Project) : List Project :=
  let mapped := ps.map fun q => if q.projectId = p.projectId then p else q
  if ps.any (fun q => q.projectId = p.projectId) then mapped else mapped ++ [p]

/-- addMessage (lines 520-562).  The target is the override or else the
current project; with neither the call returns without an update.  One
Message is appended; the content is scanned for fences whatever the role;
each frontend snippet replaces the preview in order (last wins); when any
snippet was produced the snippets are appended and the last becomes
selected; lastModified is refreshed; the updated record replaces its list
entry (or is pushed) and saveProjects runs inside the call.  Returns the new
state and the updated project the async function resolves with. -/
def addMessage (env : Env) (st : AppState) (role : Role) (content : String)
    (override : Option Project) : AppState × Option Project :=
  match override.orElse (fun _ => st.currentProject) with
  | none => (st, none)
  | some target =>
    let newMsg := mkMessage env role content
    let snips := extractSnippets env content
    let ws := target.workspace
    let ws2 := { ws with
      messages := ws.messages ++ [newMsg]
      snippets := if snips.isEmpty then ws.snippets else ws.snippets ++ snips }
    let updatedProject := { target with lastModified := env.now.iso, workspace := ws2 }
    let preview2 := snips.foldl
      (fun acc s => if s.category = Category.frontend then s.code else acc) st.previewContent
    let selected2 := match snips.getLast? with
      | some s => some s.id
      | none => st.selectedSnippetId
    let st2 := saveProjects
      { st with
        previewContent := preview2
        selectedSnippetId := selected2
        currentProject := some updatedProject }
      (replaceOrAppend st.projects updatedProject)
    (st2, some updatedProject)

/-- The mount effect (lines 490-493): read the storage key; when a record
exists and is not the empty string (which JavaScript's truthiness check
skips), JSON.parse replaces the projects state with the parsed value,
entirely unvalidated; a failed parse throws and nothing handles the
exception.  Except.error marks that unhandled throw; Except.ok carries the
resulting projects value, the initial empty list when nothing was parsed. -/
def loadEffect (stored : Option String) : Except Unit JsValue :=
  match stored with
  | none => Except.ok (JsValue.arr [])
  | some s =>
    if s = "" then Except.ok (JsValue.arr [])
    else
      match jsonParse s with
      | some v => Except.ok v
      | none => Except.error ()

/-- The chat call's outcome, supplied by the external client: error when the
awaited sendMessage rejects, ok with the optional response text otherwise. -/
def ChatOutcome : Type := Except Unit (Option String)

/-- res.text or the fallback (line 591): JavaScript's or-else treats an
undefined text and an empty text alike. -/
def responseText (t : Option String) : String :=
  match t with
  | some s => if s = "" then "Mission analysis failed." else s
  | none => "Mission analysis failed."

/-- handleSendMessage (lines 564-599), one turn.  The async handler runs to
completion against the closures its render captured, so createProject and
both addMessage calls build their lists from the projects list and current
project captured at entry, while their writes land in the live state; the
model threads the live state and re-injects the captured values where the
closures read them.  envC, envU and envA are the clocks and uuid streams of
the createProject call, the user-message call and the assistant-message
call. -/
def handleSendMessage (envC envU envA : Env) (outcome : Except Unit (Option String))
    (st : AppState) (text : String) : AppState :=
  if st.isSynthesizing then st
  else
    let projects0 := st.projects
    let current0 := st.currentProject
    let created := match current0 with
      | some p => (st, p)
      | none => createProject envC st none
    let r1 := addMessage envU { created.1 with projects := projects0, currentProject := current0 }
      Role.user text (some created.2)
    match r1.2 with
    | none => r1.1
    | some updatedProject =>
      let st3 := { r1.1 with
        isSynthesizing := true
        intelligenceState := IntelligenceState.thinking
        intelligenceMessage := "Analysing"
        activeAgents := [AgentID.architect] }
      match outcome with
      | Except.error _ =>
        { st3 with
          isSynthesizing := false
          intelligenceState := IntelligenceState.idle
          activeAgents := [] }
      | Except.ok t =>
        let st5 := { st3 with
          intelligenceState := IntelligenceState.building
          intelligenceMessage := "Reviewing"
          activeAgents := [AgentID.reviewer] }
        let r2 := addMessage envA { st5 with projects := projects0, currentProject := current0 }
          Role.assistant (responseText t) (some updatedProject)
        { r2.1 with
          isSynthesizing := false
          intelligenceState := IntelligenceState.idle
          activeAgents := [] }

/-! ## Shared facts about the operations, and concrete fixtures -/

/-- addMessage writes the snippets through a guard that is the identity on
the appended form: with no new snippets the append is of the empty list. -/
theorem snippets_if_eq (a l : List CodeSnippet) :
    (if l.isEmpty then a else a ++ l) = a ++ l := by
  cases l <;> simp

theorem snippets_if_eq2 (a l : List CodeSnippet) :
    (if l = [] then a else a ++ l) = a ++ l := by
  cases l <;> simp

/-- The code of the last frontend snippet of a batch, if the batch has
one. -/
def lastFrontendCode (l : List CodeSnippet) : Option String :=
  l.foldl (fun acc s => if s.category = Category.frontend then some s.code else acc) none

theorem lastFrontendCode_foldl : ∀ (l : List CodeSnippet) (a : Option String),
    l.foldl (fun acc s => if s.category = Category.frontend then some s.code else acc) a =
      match lastFrontendCode l with
      | some c => some c
      | none => a
  | [], a => by simp [lastFrontendCode]
  | s :: l, a => by
    have h1 := lastFrontendCode_foldl l
      (if s.category = Category.frontend then some s.code else a)
    have h2 := lastFrontendCode_foldl l
      (if s.category = Category.frontend then some s.code else none)
    rw [show lastFrontendCode (s :: l) = List.foldl
      (fun acc s => if s.category = Category.frontend then some s.code else acc)
      (if s.category = Category.frontend then some s.code else none) l from rfl]
    simp only [List.foldl_cons]
    rw [h1, h2]
    cases hl : lastFrontendCode l with
    | some c => simp
    | none => by_cases hc : s.category = Category.frontend <;> simp [hc]

/-- The preview fold of addMessage lands on the last frontend snippet's
code, or keeps the previous preview when the batch has none. -/
theorem foldl_preview (l : List CodeSnippet) (init : String) :
    l.foldl (fun acc s => if s.category = Category.frontend then s.code else acc) init =
      (lastFrontendCode l).getD init := by
  induction l generalizing init with
  | nil => simp [lastFrontendCode]
  | cons s l ih =>
    simp only [List.foldl_cons]
    rw [ih]
    have h2 := lastFrontendCode_foldl l (if s.category = Category.frontend then some s.code else none)
    rw [show lastFrontendCode (s :: l) = List.foldl
      (fun acc s => if s.category = Category.frontend then some s.code else acc)
      (if s.category = Category.frontend then some s.code else none) l from rfl, h2]
    cases hl : lastFrontendCode l with
    | some c => simp
    | none => by_cases hc : s.category = Category.frontend <;> simp [hc]

/-- Indices do not matter to a map over an enumeration that ignores them. -/
theorem enumFrom_map_indep {α β : Type} (g : α → β) :
    ∀ (l : List α) (k : Nat), (List.enumFrom k l).map (fun p => g p.2) = l.map g
  | [], _ => rfl
  | x :: xs, k => by
    simp only [List.enumFrom, List.map_cons]
    rw [enumFrom_map_indep g xs (k + 1)]

/-- A concrete clock and uuid stream for the closed instances: one instant,
with distinct uuids per draw. -/
def envW : Env :=
  { now := { millis := 78901, iso := "2024-04-05T12:34:38.901Z" }
    uuid := fun i => "uuid-" ++ toString i }

/-- A concrete project with an empty workspace. -/
def projW : Project :=
  { projectId := "p1"
    name := "N"
    description := "D"
    createdAt := "2024-04-05T12:00:00.000Z"
    lastModified := "2024-04-05T12:00:00.000Z"
    status := ProjectStatus.active
    currentPhase := ProjectPhase.onboarding
    aiPersona := "CodexPro-Alpha"
    workspace := emptyWorkspace
    snapshots := []
    sync := { lastSyncedAt := none, checksum := none, cloudStatus := CloudStatus.unsynced }
    exportMeta := none }

/-- A concrete application state holding projW as the current project, with
nothing persisted yet. -/
def stW : AppState :=
  { projects := [projW]
    currentProject := some projW
    storage := none
    previewContent := ""
    selectedSnippetId := none
    isSynthesizing := false
    intelligenceState := IntelligenceState.idle
    intelligenceMessage := ""
    activeAgents := [] }

/-- A concrete project list whose one project carries one message, so its
serialized form contains a Date. -/
def projWithMessage : Project :=
  { projW with workspace := { emptyWorkspace with
      messages := [{ id := "78901", role := Role.user, content := "hi"
                     timestamp := { millis := 78901, iso := "2024-04-05T12:34:38.901Z" }
                     meta := none, simulation := none }] } }

/-! ## When the scanner finds nothing

A fence match needs an opening triple backtick and a disjoint closing one.
The facts below make that exact: text without two disjoint triple-backtick
occurrences — in particular an unterminated fence — yields no snippet. -/

/-- A triple backtick occurs at index i of the text. -/
def tripleAt (l : List Char) (i : Nat) : Bool :=
  match l.drop i with
  | c1 :: c2 :: c3 :: _ => c1 = btk && (c2 = btk && c3 = btk)
  | _ => false

/-- No two disjoint triple-backtick occurrences: whatever opening fence the
text has, no closing fence follows it. -/
def noDisjointFencePair (l : List Char) : Prop :=
  ∀ i, i < l.length → ∀ j, j < l.length → i + 3 ≤ j →
    ¬(tripleAt l i = true ∧ tripleAt l j = true)

instance (l : List Char) : Decidable (noDisjointFencePair l) := by
  unfold noDisjointFencePair
  infer_instance

theorem findClose_split : ∀ (l body rest : List Char),
    findClose l = some (body, rest) → l = body ++ (btk :: btk :: btk :: rest)
  | [], body, rest => by intro h; rw [findClose.eq_def] at h; cases h
  | [c1], body, rest => by intro h; rw [findClose.eq_def] at h; cases h
  | [c1, c2], body, rest => by intro h; rw [findClose.eq_def] at h; cases h
  | c1 :: c2 :: c3 :: r, body, rest => by
    intro h
    rw [findClose.eq_def] at h
    simp only [] at h
    by_cases ht : c1 = btk ∧ c2 = btk ∧ c3 = btk
    · rw [if_pos ht] at h
      simp only [Option.some.injEq, Prod.mk.injEq] at h
      obtain ⟨hb, hr⟩ := h
      subst hb; subst hr
      simp [ht.1, ht.2.1, ht.2.2]
    · rw [if_neg ht] at h
      cases hrec : findClose (c2 :: c3 :: r) with
      | none => rw [hrec] at h; cases h
      | some p =>
        rcases p with ⟨body2, rest2⟩
        rw [hrec] at h
        simp only [Option.some.injEq, Prod.mk.injEq] at h
        obtain ⟨hb, hr⟩ := h
        subst hb; subst hr
        have he := findClose_split (c2 :: c3 :: r) body2 rest2 hrec
        rw [List.cons_append, ← he]

theorem fenceAt_split : ∀ (l : List Char) (lang : Option String) (body : String) (rest : List Char),
    fenceAt l = some (lang, body, rest) →
    ∃ w b, l = btk :: btk :: btk :: (w ++ (Char.ofNat 10 :: (b ++ (btk :: btk :: btk :: rest))))
  | [], lang, body, rest => by intro h; rw [fenceAt.eq_def] at h; cases h
  | [c1], lang, body, rest => by intro h; rw [fenceAt.eq_def] at h; cases h
  | [c1, c2], lang, body, rest => by intro h; rw [fenceAt.eq_def] at h; cases h
  | c1 :: c2 :: c3 :: r, lang, body, rest => by
    intro h
    rw [fenceAt.eq_def] at h
    simp only [] at h
    by_cases ht : c1 = btk ∧ c2 = btk ∧ c3 = btk
    · rw [if_pos ht] at h
      cases hdw : r.dropWhile isWordChar with
      | nil => rw [hdw] at h; cases h
      | cons nl r2 =>
        rw [hdw] at h
        simp only [] at h
        by_cases hnl : nl = Char.ofNat 10
        · rw [if_pos hnl] at h
          cases hfc : findClose r2 with
          | none => rw [hfc] at h; cases h
          | some p =>
            rcases p with ⟨b, rest2⟩
            rw [hfc] at h
            simp only [Option.some.injEq, Prod.mk.injEq] at h
            obtain ⟨-, -, hr⟩ := h
            subst hr
            refine ⟨r.takeWhile isWordChar, b, ?_⟩
            rw [ht.1, ht.2.1, ht.2.2]
            have hr2 := findClose_split r2 b rest2 hfc
            have htail : r = List.takeWhile isWordChar r ++
                (Char.ofNat 10 :: (b ++ (btk :: btk :: btk :: rest2))) := by
              conv_lhs => rw [← List.takeWhile_append_dropWhile isWordChar r]
              rw [hdw, hnl, hr2]
            exact congrArg (fun t => btk :: btk :: btk :: t) htail
        · rw [if_neg hnl] at h; cases h
    · rw [if_neg ht] at h; cases h

theorem tripleAt_here (A r : List Char) :
    tripleAt (A ++ (btk :: btk :: btk :: r)) A.length = true := by
  rw [tripleAt]
  rw [List.drop_left]
  simp

theorem tripleAt_bound (l : List Char) (i : Nat) (h : tripleAt l i = true) : i + 3 ≤ l.length := by
  rw [tripleAt] at h
  cases hd : l.drop i with
  | nil => rw [hd] at h; cases h
  | cons c1 t1 =>
    cases t1 with
    | nil => rw [hd] at h; cases h
    | cons c2 t2 =>
      cases t2 with
      | nil => rw [hd] at h; cases h
      | cons c3 t3 =>
        have hlen : (l.drop i).length = l.length - i := List.length_drop i l
        rw [hd] at hlen
        simp at hlen
        by_cases hi : i ≤ l.length
        · omega
        · rw [List.drop_eq_nil_of_le (by omega)] at hd
          cases hd

theorem tripleAt_cons (c : Char) (cs : List Char) (i : Nat) :
    tripleAt (c :: cs) (i + 1) = tripleAt cs i := rfl

theorem scanFencesAux_nil_of_noPair : ∀ (fuel : Nat) (l : List Char),
    noDisjointFencePair l → scanFencesAux fuel l = []
  | 0, l => by intro h; rfl
  | _ + 1, [] => by intro h; rfl
  | fuel + 1, c :: cs => by
    intro h
    rw [scanFencesAux.eq_def]
    simp only []
    cases hf : fenceAt (c :: cs) with
    | some p =>
      exfalso
      rcases p with ⟨lang, body, rest⟩
      obtain ⟨w, b, he⟩ := fenceAt_split _ _ _ _ hf
      have h0 : tripleAt (c :: cs) 0 = true := by
        have : c :: cs = ([] : List Char) ++ (btk :: btk :: btk ::
            (w ++ (Char.ofNat 10 :: (b ++ (btk :: btk :: btk :: rest))))) := by
          rw [List.nil_append, he]
        rw [this]
        exact tripleAt_here [] _
      have hj : tripleAt (c :: cs) (btk :: btk :: btk :: (w ++ [Char.ofNat 10] ++ b)).length = true := by
        have : c :: cs = (btk :: btk :: btk :: (w ++ [Char.ofNat 10] ++ b)) ++
            (btk :: btk :: btk :: rest) := by
          rw [he]; simp
        rw [this]
        exact tripleAt_here _ _
      have hb0 := tripleAt_bound _ _ h0
      have hbj := tripleAt_bound _ _ hj
      refine h 0 (by omega) _ (by omega) ?_ ⟨h0, hj⟩
      simp only [List.length_cons]
      omega
    | none =>
      simp only []
      apply scanFencesAux_nil_of_noPair fuel cs
      intro i hi j hj hij hpair
      refine h (i + 1) (by simp; omega) (j + 1) (by simp; omega) (by omega) ?_
      rw [tripleAt_cons, tripleAt_cons]
      exact hpair

/-- Text with no disjoint pair of triple backticks scans to no fences at
all. -/
theorem scanFences_nil_of_noPair (l : List Char) (h : noDisjointFencePair l) :
    scanFences l = [] :=
  scanFencesAux_nil_of_noPair l.length l h

/-- The project record addMessage builds for its target. -/
def ingestProject (env : Env) (role : Role) (content : String) (target : Project) : Project :=
  { target with
    lastModified := env.now.iso
    workspace := { target.workspace with
      messages := target.workspace.messages ++ [mkMessage env role content]
      snippets := target.workspace.snippets ++ extractSnippets env content } }

theorem addMessage_proj2 (env : Env) (st : AppState) (role : Role) (content : String)
    (target : Project) :
    (addMessage env st role content (some target)).2 =
      some (ingestProject env role content target) := by
  rw [addMessage]
  simp only [Option.orElse]
  rw [ingestProject]
  simp [snippets_if_eq, snippets_if_eq2, mkMessage]

theorem addMessage_proj1 (env : Env) (st : AppState) (role : Role) (content : String)
    (target : Project) :
    (addMessage env st role content (some target)).1 =
      saveProjects
        { st with
          previewContent := (lastFrontendCode (extractSnippets env content)).getD st.previewContent
          selectedSnippetId := match (extractSnippets env content).getLast? with
            | some s => some s.id
            | none => st.selectedSnippetId
          currentProject := some (ingestProject env role content target) }
        (replaceOrAppend st.projects (ingestProject env role content target)) := by
  rw [addMessage]
  simp only [Option.orElse]
  rw [ingestProject]
  simp [snippets_if_eq, snippets_if_eq2, mkMessage, foldl_preview]


/-! ## The claims -/

/-- Claim C1, corrected.  addMessage does return the project with
lastModified refreshed to the clock's current instant, but the second half
of the claim fails on the code: addMessage itself persists — line 560 calls
saveProjects on the updated list inside the ingest, so the storage key
afterwards holds the serialization of the updated in-memory list and no
separate hand-off by the caller is involved. -/
theorem C1_ingest_refreshes_and_persists_itself (env : Env) (st : AppState) (role : Role)
    (content : String) (target : Project) :
    ((addMessage env st role content (some target)).2.map Project.lastModified) =
      some env.now.iso ∧
    (addMessage env st role content (some target)).1.storage =
      some (jsonStringify (encodeProjectList
        ((addMessage env st role content (some target)).1.projects))) := by
  rw [addMessage_proj1, addMessage_proj2]
  exact ⟨rfl, rfl⟩

/-- Claim C1's counterexample: from a state with nothing persisted, one
addMessage call leaves the storage key written — the ingest does write to
the persistent store itself. -/
theorem C1_cex : stW.storage = none ∧
    (addMessage envW stW Role.user "hello" none).1.storage ≠ none := by
  constructor
  · rfl
  · decide

/-- Claim C2, corrected.  load does return the empty project list when no
record exists (and when the stored record is the empty string, which the
truthiness check skips); but a nonempty stored record that fails to parse
makes JSON.parse throw, and line 492 wraps it in no handler, so the failure
raises instead of being treated as absent state. -/
theorem C2_load_parse_failure_raises :
    loadEffect none = Except.ok (JsValue.arr []) ∧
    loadEffect (some "") = Except.ok (JsValue.arr []) ∧
    ∀ s : String, s ≠ "" → jsonParse s = none → loadEffect (some s) = Except.error () := by
  refine ⟨rfl, rfl, ?_⟩
  intro s hne hp
  rw [loadEffect]
  simp [hne, hp]

/-- Claim C2's witness: a concrete unparsable record makes load raise. -/
theorem C2_witness : loadEffect (some "not-json") = Except.error () :=
  C2_load_parse_failure_raises.2.2 "not-json" (by decide) (by decide)

/-- Claim C2's counterexample: a stored record that fails to parse does not
fail open to the empty list — the load effect ends in the unhandled
exception. -/
theorem C2_cex : jsonParse "nonsense" = none ∧
    loadEffect (some "nonsense") = Except.error () := by
  have h : jsonParse "nonsense" = none := by decide
  refine ⟨h, ?_⟩
  rw [show loadEffect (some "nonsense") =
    (match jsonParse "nonsense" with
     | some v => Except.ok v
     | none => Except.error ()) from rfl, h]

/-- Claim C3, corrected.  Ingest does append exactly one new Message, but
the fence scan is not guarded by the role: lines 534-550 run on the content
for user messages just as for assistant ones, so a user-role message whose
content contains fenced code appends snippets too.  The snippet batch
appended is a function of the content alone. -/
theorem C3_ingest_appends_one_message_scans_all_roles (env : Env) (st : AppState) (role : Role)
    (content : String) (target : Project) :
    ∃ p, (addMessage env st role content (some target)).2 = some p ∧
      p.workspace.messages = target.workspace.messages ++ [mkMessage env role content] ∧
      p.workspace.snippets = target.workspace.snippets ++ extractSnippets env content := by
  rw [addMessage_proj2]
  exact ⟨ingestProject env role content target, rfl, rfl, rfl⟩

/-- Claim C3's counterexample: a user-role message with a fenced block
appends a snippet. -/
theorem C3_cex :
    projW.workspace.snippets.length = 0 ∧
    ((addMessage envW stW Role.user "```ts\ncode\n```" none).2.map
      (fun p => p.workspace.snippets.length)) = some 1 := by
  constructor <;> decide

/-- Claim C4, corrected.  A turn whose outbound call fails leaves the
conversation with only the user message appended (no assistant message),
returns the indicator to idle, clears the busy flag, and records no error
value — the model's state carries no error field at all.  The one part of
the claim the code refutes is no snippet is added: the ingest scans the
user message itself, so fenced code in the user's own text still produces
snippets during the failed turn. -/
theorem C4_failed_turn (envC envU envA : Env) (st : AppState) (text : String) (P : Project)
    (hbusy : st.isSynthesizing = false) (hcur : st.currentProject = some P) :
    ∃ U, (handleSendMessage envC envU envA (Except.error ()) st text).currentProject = some U ∧
      U.workspace.messages = P.workspace.messages ++ [mkMessage envU Role.user text] ∧
      U.workspace.snippets = P.workspace.snippets ++ extractSnippets envU text ∧
      (handleSendMessage envC envU envA (Except.error ()) st text).intelligenceState =
        IntelligenceState.idle ∧
      (handleSendMessage envC envU envA (Except.error ()) st text).isSynthesizing = false := by
  rw [handleSendMessage, hbusy, hcur]
  simp only [Bool.false_eq_true, if_false]
  rw [addMessage_proj2, addMessage_proj1]
  exact ⟨ingestProject envU Role.user text P, rfl, rfl, rfl, rfl, rfl⟩

/-- Claim C4's witness: a concrete failed turn appends exactly the user
message and returns to idle. -/
theorem C4_witness :
    stW.isSynthesizing = false ∧ stW.currentProject = some projW ∧
    ∃ U, (handleSendMessage envW envW envW (Except.error ()) stW "hi").currentProject = some U ∧
      U.workspace.messages = projW.workspace.messages ++ [mkMessage envW Role.user "hi"] ∧
      U.workspace.snippets = projW.workspace.snippets ++ extractSnippets envW "hi" ∧
      (handleSendMessage envW envW envW (Except.error ()) stW "hi").intelligenceState =
        IntelligenceState.idle ∧
      (handleSendMessage envW envW envW (Except.error ()) stW "hi").isSynthesizing = false :=
  ⟨rfl, rfl, C4_failed_turn envW envW envW stW "hi" projW rfl rfl⟩

/-- Claim C4's counterexample: a failed turn whose user text carries a
fenced block does add a snippet. -/
theorem C4_cex :
    projW.workspace.snippets = [] ∧
    ((handleSendMessage envW envW envW (Except.error ()) stW "```ts\nz\n```").currentProject.map
      (fun p => p.workspace.snippets.length)) = some 1 := by
  constructor <;> decide

/-- Claim C5, corrected.  Save followed by load recovers the stored object
graph exactly up to one systematic change: a Message timestamp is stored as
a Date object, JSON.stringify writes it as its ISO string, and JSON.parse
has no inverse step, so the loaded list carries plain strings where the
saved one carried Dates.  Everything else — every other field of every
Project, nested Workspace messages and snippets included — round-trips
unchanged, which is exactly the statement that the parsed value is
stripDates of the stored graph. -/
theorem C5_roundtrip_modulo_dates (ps : List Project) :
    jsonParse (jsonStringify (encodeProjectList ps)) =
      some (stripDates (encodeProjectList ps)) :=
  jsonParse_jsonStringify (encodeProjectList ps)

/-- Claim C5's counterexample: a list holding one project with one message
does not round-trip to itself — the timestamp comes back a string. -/
theorem C5_cex :
    jsonParse (jsonStringify (encodeProjectList [projWithMessage])) ≠
      some (encodeProjectList [projWithMessage]) := by
  decide

/-- Claim C6, confirmed.  Each fenced region yields one snippet, in source
order, whose language is the fence's token or the typescript default and
whose category is the first marker-comment match in the body or the
frontend default; and the claim's concrete instance holds: ingesting the
backend-marked ts block appends exactly one snippet tagged (ts, backend). -/
theorem C6_fence_language_and_category (env : Env) (st : AppState) (target : Project) :
    (∀ content : String,
      (extractSnippets env content).map (fun s => (s.language, s.category)) =
        (scanFences content.data).map
          (fun q => (q.1.getD "typescript", (findCategory q.2.data).getD Category.frontend))) ∧
    ∃ p, (addMessage env st Role.assistant "```ts\n// Category: backend\nconst x=1;\n```"
        (some target)).2 = some p ∧
      p.workspace.snippets.map (fun s => (s.language, s.category)) =
        target.workspace.snippets.map (fun s => (s.language, s.category)) ++
          [("ts", Category.backend)] := by
  have ha : ∀ content : String,
      (extractSnippets env content).map (fun s => (s.language, s.category)) =
        (scanFences content.data).map
          (fun q => (q.1.getD "typescript", (findCategory q.2.data).getD Category.frontend)) := by
    intro content
    rw [extractSnippets, List.map_map]
    have hfe : ((fun s : CodeSnippet => (s.language, s.category)) ∘
        fun p : Nat × Option String × String => mkSnippet env p.1 p.2.1 p.2.2) =
        fun p : Nat × Option String × String =>
          ((fun q : Option String × String =>
            (q.1.getD "typescript", (findCategory q.2.data).getD Category.frontend)) p.2) := by
      funext p
      rfl
    rw [hfe, show (scanFences content.data).enum =
      List.enumFrom 0 (scanFences content.data) from rfl]
    exact enumFrom_map_indep (fun q : Option String × String =>
      (q.1.getD "typescript", (findCategory q.2.data).getD Category.frontend))
      (scanFences content.data) 0
  refine ⟨ha, ?_⟩
  rw [addMessage_proj2]
  refine ⟨_, rfl, ?_⟩
  rw [show (ingestProject env Role.assistant "```ts\n// Category: backend\nconst x=1;\n```"
      target).workspace.snippets = target.workspace.snippets ++
      extractSnippets env "```ts\n// Category: backend\nconst x=1;\n```" from rfl]
  rw [List.map_append, ha]
  rw [show scanFences ("```ts\n// Category: backend\nconst x=1;\n```").data =
    [(some "ts", "// Category: backend\nconst x=1;\n")] from by decide]
  rw [show List.map (fun q : Option String × String =>
      (q.1.getD "typescript", (findCategory q.2.data).getD Category.frontend))
      [(some "ts", "// Category: backend\nconst x=1;\n")] = [("ts", Category.backend)] from by decide]

/-- Claim C7, confirmed.  When the batch extracted from assistant content
has at least one frontend-category snippet, the preview afterwards is the
code of the last one in source order, replacing whatever preview was there;
and the snippets are appended intact, so two frontend blocks leave two new
snippets with the preview equal to the second block's code (the witness
instantiates exactly that). -/
theorem C7_preview_is_last_frontend (env : Env) (st : AppState) (target : Project)
    (content : String) (c : String)
    (h : lastFrontendCode (extractSnippets env content) = some c) :
    (addMessage env st Role.assistant content (some target)).1.previewContent = c ∧
    ∃ p, (addMessage env st Role.assistant content (some target)).2 = some p ∧
      p.workspace.snippets = target.workspace.snippets ++ extractSnippets env content := by
  constructor
  · rw [addMessage_proj1]
    show (lastFrontendCode (extractSnippets env content)).getD st.previewContent = c
    rw [h]
    rfl
  · rw [addMessage_proj2]
    exact ⟨_, rfl, rfl⟩

/-- Claim C7's witness: two frontend blocks give exactly two new snippets
and the preview equals the second block's code. -/
theorem C7_witness :
    lastFrontendCode (extractSnippets envW "```tsx\nA\n```\nmid\n```tsx\nB\n```") = some "B\n" ∧
    (extractSnippets envW "```tsx\nA\n```\nmid\n```tsx\nB\n```").length = 2 ∧
    (addMessage envW stW Role.assistant "```tsx\nA\n```\nmid\n```tsx\nB\n```"
      (some projW)).1.previewContent = "B\n" :=
  ⟨by decide, by decide,
    (C7_preview_is_last_frontend envW stW projW "```tsx\nA\n```\nmid\n```tsx\nB\n```" "B\n"
      (by decide)).1⟩

/-- Claim C8, confirmed.  Content without a disjoint pair of triple
backticks — in particular an opening fence never followed by a closing one —
yields no snippet at all: the malformed region is silently dropped, and the
scanner, a total function, raises nothing. -/
theorem C8_unterminated_fence_yields_nothing (env : Env) (content : String)
    (h : noDisjointFencePair content.data) :
    extractSnippets env content = [] := by
  rw [extractSnippets, scanFences_nil_of_noPair content.data h]
  rfl

/-- Claim C8's witness: a concrete unterminated fence yields no snippets. -/
theorem C8_witness :
    noDisjointFencePair ("```ts\nconst x = 1;").data ∧
    extractSnippets envW "```ts\nconst x = 1;" = [] :=
  ⟨by decide, C8_unterminated_fence_yields_nothing envW "```ts\nconst x = 1;" (by decide)⟩

/-- Claim C9, confirmed.  createProject yields a project with empty
workspace messages and snippets whose id is the freshly drawn uuid — unique
among the stored projects whenever the draw is fresh, which is the external
contract of crypto.randomUUID; the record is inserted at the front of the
list, the name falls back to the generated Mission name when none is
supplied, and the list is persisted immediately by the call itself. -/
theorem C9_createProject (env : Env) (st : AppState) (name : Option String) :
    (createProject env st name).2.workspace.messages = [] ∧
    (createProject env st name).2.workspace.snippets = [] ∧
    (createProject env st name).2.projectId = env.uuid 0 ∧
    ((env.uuid 0 ∉ st.projects.map Project.projectId) →
      (createProject env st name).2.projectId ∉ st.projects.map Project.projectId) ∧
    (createProject env st name).1.projects = (createProject env st name).2 :: st.projects ∧
    (name = none → (createProject env st name).2.name =
      "Mission " ++ toString (st.projects.length + 1)) ∧
    (createProject env st name).1.storage =
      some (jsonStringify (encodeProjectList
        ((createProject env st name).2 :: st.projects))) := by
  refine ⟨rfl, rfl, rfl, ?_, rfl, ?_, rfl⟩
  · intro hf
    exact hf
  · intro hn
    subst hn
    rfl

/-- Claim C9's witness: from the concrete one-project store, the created
project's id is new to the store and the default name counts the list. -/
theorem C9_witness :
    ("uuid-0" ∉ stW.projects.map Project.projectId) ∧
    (createProject envW stW none).2.projectId ∉ stW.projects.map Project.projectId ∧
    (createProject envW stW none).2.name = "Mission 2" := by
  refine ⟨by decide, (C9_createProject envW stW none).2.2.2.1 (by decide), ?_⟩
  have h := (C9_createProject envW stW none).2.2.2.2.2.1 rfl
  rw [h]
  decide

/-- Claim C10, confirmed (an implicit claim read off the code).  When the
outbound call succeeds but the response text is absent or empty, the
JavaScript or-else on line 591 substitutes the literal fallback, so an
assistant Message is still appended and its content is exactly the string
Mission analysis failed.; the state carries no record distinguishing this
from a genuine response of that text, and no error value exists in the
model. -/
theorem C10_empty_response_fallback (envC envU envA : Env) (st : AppState) (text : String)
    (t : Option String) (P : Project)
    (hbusy : st.isSynthesizing = false) (hcur : st.currentProject = some P)
    (hempty : t = none ∨ t = some "") :
    ∃ U, (handleSendMessage envC envU envA (Except.ok t) st text).currentProject = some U ∧
      U.workspace.messages = P.workspace.messages ++
        [mkMessage envU Role.user text,
         mkMessage envA Role.assistant "Mission analysis failed."] ∧
      (handleSendMessage envC envU envA (Except.ok t) st text).intelligenceState =
        IntelligenceState.idle := by
  have hresp : responseText t = "Mission analysis failed." := by
    rcases hempty with h | h <;> subst h <;> rfl
  rw [handleSendMessage, hbusy, hcur]
  simp only [Bool.false_eq_true, if_false]
  rw [addMessage_proj2, addMessage_proj1]
  simp only []
  rw [hresp, addMessage_proj1]
  refine ⟨_, rfl, ?_, ?_⟩
  · rw [show (ingestProject envA Role.assistant "Mission analysis failed."
        (ingestProject envU Role.user text P)).workspace.messages =
        (P.workspace.messages ++ [mkMessage envU Role.user text]) ++
          [mkMessage envA Role.assistant "Mission analysis failed."] from rfl]
    simp
  · trivial

/-- Claim C10's witness: a concrete successful call with empty text appends
the fallback assistant message. -/
theorem C10_witness :
    stW.isSynthesizing = false ∧ stW.currentProject = some projW ∧
    (some "" = none ∨ some "" = some "") ∧
    ∃ U, (handleSendMessage envW envW envW (Except.ok (some "")) stW "hi").currentProject =
        some U ∧
      U.workspace.messages = projW.workspace.messages ++
        [mkMessage envW Role.user "hi",
         mkMessage envW Role.assistant "Mission analysis failed."] ∧
      (handleSendMessage envW envW envW (Except.ok (some "")) stW "hi").intelligenceState =
        IntelligenceState.idle :=
  ⟨rfl, rfl, Or.inr rfl,
    C10_empty_response_fallback envW envW envW stW "hi" (some "") projW rfl rfl (Or.inr rfl)⟩

end CodexPro
